import Mathlib

set_option maxHeartbeats 1000000
set_option linter.unusedVariables false

/-!
Verification of the core of the `rivu` streaming decision-tree library
(Hoeffding tree, attribute-class observers, Naive Bayes scoring, Gini split
criterion, memory-bounded leaf deactivation, prequential evaluation loop).

Rust `f64` values are modelled by the type `Fl`: a finite value carries an
exact rational magnitude, and NaN and the two infinities are explicit
constructors.  IEEE-754 special-value propagation (NaN absorption,
`0 * inf = NaN`, `0 / 0 = NaN`, comparisons with NaN being false, ...) is
modelled faithfully; rounding is not modelled (the spec's non-goals exclude
bit-exact float reproducibility), and the sign of zero is not tracked.
Purely algebraic invariants (Welford recurrence, promise ordering) are stated
over exact rationals, matching the claims, which quantify over finite data.
-/

/-- Model of an `f64` value: an exact finite rational, NaN, or an infinity. -/
inductive Fl where
  | fin (q : ℚ)
  | nan
  | inf
  | ninf
deriving DecidableEq, Repr

namespace Fl

/-- Rust `f64::is_nan`. -/
def isNan : Fl → Bool
  | nan => true
  | fin _ => false
  | inf => false
  | ninf => false

/-- Rust `f64::is_finite`. -/
def isFinite : Fl → Bool
  | fin _ => true
  | nan => false
  | inf => false
  | ninf => false

/-- Rust `f64::is_infinite`. -/
def isInfinite : Fl → Bool
  | inf => true
  | ninf => true
  | fin _ => false
  | nan => false

/-- IEEE-754 negation. -/
def neg : Fl → Fl
  | fin q => fin (-q)
  | nan => nan
  | inf => ninf
  | ninf => inf

/-- IEEE-754 addition (exact on finite values). -/
def add : Fl → Fl → Fl
  | nan, _ => nan
  | fin _, nan => nan
  | inf, nan => nan
  | ninf, nan => nan
  | fin a, fin b => fin (a + b)
  | fin _, inf => inf
  | fin _, ninf => ninf
  | inf, fin _ => inf
  | inf, inf => inf
  | inf, ninf => nan
  | ninf, fin _ => ninf
  | ninf, inf => nan
  | ninf, ninf => ninf

/-- IEEE-754 subtraction, which coincides with adding the negation. -/
def sub (a b : Fl) : Fl := add a (neg b)

/-- IEEE-754 multiplication (exact on finite values); `0 * ±inf = NaN`. -/
def mul : Fl → Fl → Fl
  | nan, _ => nan
  | fin _, nan => nan
  | inf, nan => nan
  | ninf, nan => nan
  | fin a, fin b => fin (a * b)
  | fin a, inf => if a = 0 then nan else if 0 < a then inf else ninf
  | fin a, ninf => if a = 0 then nan else if 0 < a then ninf else inf
  | inf, fin b => if b = 0 then nan else if 0 < b then inf else ninf
  | ninf, fin b => if b = 0 then nan else if 0 < b then ninf else inf
  | inf, inf => inf
  | inf, ninf => ninf
  | ninf, inf => ninf
  | ninf, ninf => inf

/-- IEEE-754 division (exact on finite values); `0 / 0 = NaN`, `x / 0 = ±inf`
for a finite nonzero `x` (the sign of zero is not tracked, so the divisor zero
counts as positive). -/
def div : Fl → Fl → Fl
  | nan, _ => nan
  | fin _, nan => nan
  | inf, nan => nan
  | ninf, nan => nan
  | fin a, fin b =>
      if b = 0 then (if a = 0 then nan else if 0 < a then inf else ninf)
      else fin (a / b)
  | fin _, inf => fin 0
  | fin _, ninf => fin 0
  | inf, fin b => if 0 ≤ b then inf else ninf
  | ninf, fin b => if 0 ≤ b then ninf else inf
  | inf, inf => nan
  | inf, ninf => nan
  | ninf, inf => nan
  | ninf, ninf => nan

/-- Rust `x.powf(2.0)`, which on every `Fl` value coincides with `x * x`. -/
def powf2 (a : Fl) : Fl := mul a a

/-- IEEE-754 `<` (every comparison against NaN is false). -/
def lt : Fl → Fl → Bool
  | nan, _ => false
  | fin _, nan => false
  | inf, nan => false
  | ninf, nan => false
  | fin a, fin b => decide (a < b)
  | fin _, inf => true
  | fin _, ninf => false
  | inf, fin _ => false
  | inf, inf => false
  | inf, ninf => false
  | ninf, fin _ => true
  | ninf, inf => true
  | ninf, ninf => false

/-- IEEE-754 `≤` (every comparison against NaN is false). -/
def le : Fl → Fl → Bool
  | nan, _ => false
  | fin _, nan => false
  | inf, nan => false
  | ninf, nan => false
  | fin a, fin b => decide (a ≤ b)
  | fin _, inf => true
  | fin _, ninf => false
  | inf, fin _ => false
  | inf, inf => true
  | inf, ninf => false
  | ninf, fin _ => true
  | ninf, inf => true
  | ninf, ninf => true

/-- IEEE-754 `>`. -/
def gt (a b : Fl) : Bool := lt b a

/-- IEEE-754 `≥`. -/
def ge (a b : Fl) : Bool := le b a

/-- Rust `as usize` cast: truncation toward zero, saturating at `0` and at
`usize::MAX`; NaN casts to `0`. -/
def toUsize : Fl → ℕ
  | fin q => min (Int.toNat (Int.floor q)) (2 ^ 64 - 1)
  | nan => 0
  | inf => 2 ^ 64 - 1
  | ninf => 0

end Fl

/-- Rust `iter().sum::<f64>()`: left fold of IEEE addition starting at `0.0`. -/
def flSum (l : List Fl) : Fl := l.foldl Fl.add (Fl.fin 0)


/-!
Gaussian estimator (`src/core/estimators/gaussian_estimator.rs`): Welford's
weighted recurrence over `weight_sum`, `mean`, `variance_sum`.
-/

/-- State of `GaussianEstimator`; all three fields start at `0.0`
(`#[derive(Default)]`). -/
structure GaussianEstimator where
  weightSum : Fl := Fl.fin 0
  mean : Fl := Fl.fin 0
  varianceSum : Fl := Fl.fin 0
deriving DecidableEq, Repr

namespace GaussianEstimator

/-- Rust `GaussianEstimator::new` (all fields default to `0.0`). -/
def new : GaussianEstimator := {}

/-- Rust `GaussianEstimator::add_observation`: non-finite values are ignored;
on the first weighted observation the mean is seeded, afterwards Welford's
weighted update runs (`variance_sum` is never reset). -/
def addObservation (g : GaussianEstimator) (value weight : Fl) : GaussianEstimator :=
  if value.isInfinite || value.isNan then g
  else if Fl.gt g.weightSum (Fl.fin 0) then
    let weightSum := Fl.add g.weightSum weight
    let lastMean := g.mean
    let mean := Fl.add g.mean (Fl.div (Fl.mul weight (Fl.sub value lastMean)) weightSum)
    let varianceSum :=
      Fl.add g.varianceSum (Fl.mul (Fl.mul weight (Fl.sub value lastMean)) (Fl.sub value mean))
    { weightSum := weightSum, mean := mean, varianceSum := varianceSum }
  else
    { weightSum := weight, mean := value, varianceSum := g.varianceSum }

/-- Rust `GaussianEstimator::get_variance`:
`variance_sum / (weight_sum - 1)` when `weight_sum > 1`, else `0`. -/
def getVariance (g : GaussianEstimator) : Fl :=
  if Fl.gt g.weightSum (Fl.fin 1) then Fl.div g.varianceSum (Fl.sub g.weightSum (Fl.fin 1))
  else Fl.fin 0

end GaussianEstimator


/-!
Nominal attribute-class observer
(`src/classifiers/attribute_class_observers/nominal_attribute_class_observer.rs`):
`total_weight`, `missing_weight`, and a ragged per-class per-value weight table
grown on demand.  Vectors are modelled as lists; `resize` appends zero-filled
padding, and in-place `+=` is an index update.
-/

/-- Rust `Vec::resize`/`resize_with` used by `ensure_class` and `ensure_value`:
grow the vector to length `i + 1` with `pad`, or leave it unchanged when it is
already long enough. -/
def ensureLen {α : Type} (l : List α) (i : ℕ) (pad : α) : List α :=
  l ++ List.replicate (i + 1 - l.length) pad

/-- In-place update of the element at index `i` (a no-op out of range),
modelling `v[i] = f(v[i])`. -/
def updateAt {α : Type} : List α → ℕ → (α → α) → List α
  | [], _, _ => []
  | x :: xs, 0, f => f x :: xs
  | x :: xs, n + 1, f => x :: updateAt xs n f

/-- State of `NominalAttributeClassObserver`; all fields start empty/zero. -/
structure NominalAttributeClassObserver where
  totalWeightObserved : Fl := Fl.fin 0
  missingWeightObserved : Fl := Fl.fin 0
  attributeValueDistributionPerClass : List (List Fl) := []
deriving DecidableEq, Repr

namespace NominalAttributeClassObserver

/-- Rust `NominalAttributeClassObserver::new`. -/
def new : NominalAttributeClassObserver := {}

/-- Rust `observe_attribute_class` of the nominal observer: a NaN value adds
`weight` to the missing-weight accumulator, any other value is cast to an index
and `weight` is added to the per-class cell; `total_weight_observed` always
accumulates `weight`.  There is no guard on the weight. -/
def observeAttributeClass (o : NominalAttributeClassObserver) (attVal : Fl) (classVal : ℕ)
    (weight : Fl) : NominalAttributeClassObserver :=
  if attVal.isNan then
    { o with missingWeightObserved := Fl.add o.missingWeightObserved weight,
             totalWeightObserved := Fl.add o.totalWeightObserved weight }
  else
    let attValInt := attVal.toUsize
    let dists := ensureLen o.attributeValueDistributionPerClass classVal []
    let dists := updateAt dists classVal (fun row =>
      updateAt (ensureLen row attValInt (Fl.fin 0)) attValInt (fun c => Fl.add c weight))
    { o with attributeValueDistributionPerClass := dists,
             totalWeightObserved := Fl.add o.totalWeightObserved weight }

/-- Rust `probability_of_attribute_value_given_class` of the nominal observer:
`None` for a NaN value or an absent/empty class row, else the Laplace-smoothed
`(count + 1) / (row_sum + row_len)`. -/
def probabilityOfAttributeValueGivenClass (o : NominalAttributeClassObserver) (attVal : Fl)
    (classVal : ℕ) : Option Fl :=
  if attVal.isNan then none
  else
    let attValInt := attVal.toUsize
    match o.attributeValueDistributionPerClass.get? classVal with
    | none => none
    | some row =>
      if row.isEmpty then none
      else
        let count := (row.get? attValInt).getD (Fl.fin 0)
        let sum := flSum row
        let k := Fl.fin (row.length : ℚ)
        some (Fl.div (Fl.add count (Fl.fin 1)) (Fl.add sum k))

end NominalAttributeClassObserver


/-!
Gaussian numeric attribute-class observer
(`src/classifiers/attribute_class_observers/gaussian_numeric_attribute_class_observer.rs`):
per-class min/max and a per-class optional Gaussian estimator.
-/

/-- State of `GaussianNumericAttributeClassObserver`. -/
structure GaussianNumericAttributeClassObserver where
  minValueObservedPerClass : List Fl := []
  maxValueObservedPerClass : List Fl := []
  attributeValueDistributionPerClass : List (Option GaussianEstimator) := []
  numBinsOption : ℕ := 10
deriving DecidableEq, Repr

namespace GaussianNumericAttributeClassObserver

/-- Rust `GaussianNumericAttributeClassObserver::new`. -/
def new : GaussianNumericAttributeClassObserver := {}

/-- Rust `observe_attribute_class` of the Gaussian observer: ignored when the
value is NaN, or the weight is non-finite, or the weight is `≤ 0`; otherwise
the per-class vectors are grown, the estimator for the class is created (seeding
min = max = value) or updated together with the min/max. -/
def observeAttributeClass (o : GaussianNumericAttributeClassObserver) (attVal : Fl)
    (classVal : ℕ) (weight : Fl) : GaussianNumericAttributeClassObserver :=
  if attVal.isNan || !weight.isFinite || Fl.le weight (Fl.fin 0) then o
  else
    let dists := ensureLen o.attributeValueDistributionPerClass classVal none
    let mins := ensureLen o.minValueObservedPerClass classVal (Fl.fin 0)
    let maxs := ensureLen o.maxValueObservedPerClass classVal (Fl.fin 0)
    match (dists.get? classVal).getD none with
    | none =>
      let est := GaussianEstimator.new.addObservation attVal weight
      { o with attributeValueDistributionPerClass := updateAt dists classVal (fun _ => some est),
               minValueObservedPerClass := updateAt mins classVal (fun _ => attVal),
               maxValueObservedPerClass := updateAt maxs classVal (fun _ => attVal) }
    | some est =>
      let mins := if Fl.lt attVal ((mins.get? classVal).getD (Fl.fin 0)) then
          updateAt mins classVal (fun _ => attVal) else mins
      let maxs := if Fl.gt attVal ((maxs.get? classVal).getD (Fl.fin 0)) then
          updateAt maxs classVal (fun _ => attVal) else maxs
      { o with attributeValueDistributionPerClass :=
                 updateAt dists classVal (fun _ => some (est.addObservation attVal weight)),
               minValueObservedPerClass := mins,
               maxValueObservedPerClass := maxs }

end GaussianNumericAttributeClassObserver

/-!
Naive Bayes scoring (`src/classifiers/bayes/naive_bayes.rs`).  The prediction
function is generic over trait objects `dyn AttributeClassObserver`, of which
it only calls `probability_of_attribute_value_given_class`; each observer slot
is therefore embedded as an optional function `Fl → ℕ → Option Fl`.
-/

/-- Observer slots as seen by `do_naive_bayes_prediction`: the optional boxed
trait object embedded by the only method the scorer calls. -/
def ObserverFun : Type := Fl → ℕ → Option Fl

/-- Shallow embedding of `dyn Instance` as used by the scorer and the tree:
a dense value vector (NaN encodes missing), the class column index, the number
of classes, and the instance weight.  `value_at_index` is `values.get?`;
`is_missing_at_index` errs (is `none`) out of bounds. -/
structure RInstance where
  values : List Fl
  classIndex : ℕ
  numClasses : ℕ := 0
  weight : Fl := Fl.fin 1

namespace RInstance

/-- Rust `Instance::value_at_index` (`None` out of bounds). -/
def valueAtIndex (inst : RInstance) (i : ℕ) : Option Fl := inst.values.get? i

/-- Rust `Instance::is_missing_at_index` (`Err` out of bounds, modelled as
`none`; in bounds, missing means NaN). -/
def isMissingAtIndex (inst : RInstance) (i : ℕ) : Option Bool :=
  (inst.values.get? i).map Fl.isNan

/-- Rust `Instance::number_of_attributes`. -/
def numberOfAttributes (inst : RInstance) : ℕ := inst.values.length

/-- Rust `Instance::number_of_classes`. -/
def numberOfClasses (inst : RInstance) : ℕ := inst.numClasses

end RInstance

namespace NaiveBayes

/-- Rust `NaiveBayes::model_att_index_to_instance_att_index`
(and `HoeffdingTree::model_attribute_index_to_instance_attribute_index`):
skip the class column. -/
def modelAttIndexToInstanceAttIndex (modelIdx classIdx : ℕ) : ℕ :=
  if classIdx > modelIdx then modelIdx else modelIdx + 1

/-- Rust `NaiveBayes::do_naive_bayes_prediction`: each vote starts at
`counts[k] / Σ counts` and the loop over model attributes multiplies in
`p = obs.probability_of_attribute_value_given_class(x, k).unwrap_or(0.0)`,
skipping missing values, absent observer slots, and out-of-range lookups. -/
def doNaiveBayesPrediction (inst : RInstance) (observedClassDistribution : List Fl)
    (attributeObservers : List (Option ObserverFun)) : List Fl :=
  let observedClassSum := flSum observedClassDistribution
  (List.range observedClassDistribution.length).map (fun classIndex =>
    (List.range (inst.numberOfAttributes - 1)).foldl (fun score attIndex =>
      let instAttIndex := modelAttIndexToInstanceAttIndex attIndex inst.classIndex
      let isMissing := (inst.isMissingAtIndex instAttIndex).getD true
      if isMissing then score
      else
        match attributeObservers.get? attIndex with
        | none => score
        | some none => score
        | some (some obs) =>
          match inst.valueAtIndex instAttIndex with
          | none => score
          | some x => Fl.mul score ((obs x classIndex).getD (Fl.fin 0)))
      (Fl.div ((observedClassDistribution.get? classIndex).getD (Fl.fin 0)) observedClassSum))

/-- The prediction the claim describes, written from the spec's words: an
observer that is present but answers `None` is skipped exactly like a missing
value (the score is left unchanged), rather than multiplying by `0.0`. -/
def doNaiveBayesPredictionSpec (inst : RInstance) (observedClassDistribution : List Fl)
    (attributeObservers : List (Option ObserverFun)) : List Fl :=
  let observedClassSum := flSum observedClassDistribution
  (List.range observedClassDistribution.length).map (fun classIndex =>
    (List.range (inst.numberOfAttributes - 1)).foldl (fun score attIndex =>
      let instAttIndex := modelAttIndexToInstanceAttIndex attIndex inst.classIndex
      let isMissing := (inst.isMissingAtIndex instAttIndex).getD true
      if isMissing then score
      else
        match attributeObservers.get? attIndex with
        | none => score
        | some none => score
        | some (some obs) =>
          match inst.valueAtIndex instAttIndex with
          | none => score
          | some x =>
            match obs x classIndex with
            | none => score
            | some p => Fl.mul score p)
      (Fl.div ((observedClassDistribution.get? classIndex).getD (Fl.fin 0)) observedClassSum))

/-- The multiplier actually applied by `do_naive_bayes_prediction` for model
attribute `attIndex` and class `classIndex`: `none` when the attribute is
skipped (missing value, absent observer slot, out-of-range value lookup), and
`some (p.unwrap_or 0.0)` when a present observer is consulted. -/
def nbFactor (inst : RInstance) (attributeObservers : List (Option ObserverFun))
    (classIndex attIndex : ℕ) : Option Fl :=
  let instAttIndex := modelAttIndexToInstanceAttIndex attIndex inst.classIndex
  if (inst.isMissingAtIndex instAttIndex).getD true then none
  else
    match attributeObservers.get? attIndex with
    | none => none
    | some none => none
    | some (some obs) =>
      match inst.valueAtIndex instAttIndex with
      | none => none
      | some x => some ((obs x classIndex).getD (Fl.fin 0))

end NaiveBayes

/-!
Gini split criterion
(`src/classifiers/hoeffding_tree/split_criteria/gini_split_criterion.rs`).
-/

namespace GiniSplitCriterion

/-- Rust `GiniSplitCriterion::compute_gini`: start from `1.0` and subtract the
squared relative frequency `(i / distribution_sum_of_weights).powf(2.0)` of
every entry. -/
def computeGini (distribution : List Fl) (distributionSumOfWeights : Fl) : Fl :=
  distribution.foldl
    (fun gini i => Fl.sub gini (Fl.powf2 (Fl.div i distributionSumOfWeights))) (Fl.fin 1)

/-- Rust `GiniSplitCriterion::get_range_of_merit`: always `1.0`. -/
def getRangeOfMerit (_preSplitDistribution : List Fl) : Fl := Fl.fin 1

/-- Rust `GiniSplitCriterion::get_merit_of_split`: the first loop collects each
branch weight and the total, the second accumulates
`(w_i / total) * compute_gini(dist_i, w_i)` for every branch, guarded only by
`total_weight > 0.0` (not by the branch weight); the merit is `1 - gini`. -/
def getMeritOfSplit (_preSplitDistribution : List Fl) (postSplitDists : List (List Fl)) : Fl :=
  let distWeights := postSplitDists.map flSum
  let totalWeight := flSum distWeights
  let gini := (postSplitDists.zip distWeights).foldl
    (fun g p =>
      if Fl.gt totalWeight (Fl.fin 0) then
        Fl.add g (Fl.mul (Fl.div p.2 totalWeight) (computeGini p.1 p.2))
      else g)
    (Fl.fin 0)
  Fl.sub (Fl.fin 1) gini

/-- The merit formula of the spec, written from its words over exact rationals:
`1 - Σᵢ (Wᵢ/W) · (1 - Σ_c (post[i][c]/Wᵢ)²)`. -/
def giniMeritSpec (post : List (List ℚ)) : ℚ :=
  let w := (post.map List.sum).sum
  1 - (post.map (fun d => (d.sum / w) * (1 - (d.map (fun c => (c / d.sum) ^ 2)).sum))).sum

end GiniSplitCriterion

/-!
Split suggestions and the merit sort
(`src/classifiers/hoeffding_tree/hoeffding_tree.rs`, `attempt_to_split`).
-/

/-- Data carrier `AttributeSplitSuggestion` (its defining file is not among the
sources; modelled from the spec: a suggestion couples an optional conditional
test, the resulting per-branch class distributions, and a merit).  The
conditional test is abstracted to an id, since the sort and the split decision
only inspect its presence. -/
structure AttributeSplitSuggestion where
  splitTest : Option ℕ
  resultingClassDistributions : List (List Fl)
  merit : Fl
deriving DecidableEq, Repr

namespace HoeffdingTree

/-- The comparator passed to `sort_by` in `HoeffdingTree::attempt_to_split`:
two NaN merits compare equal, a NaN merit is `Greater` than any other merit,
and otherwise `partial_cmp(..).unwrap_or(Equal)` decides. -/
def meritOrdering (a b : AttributeSplitSuggestion) : Ordering :=
  let aMerit := a.merit
  let bMerit := b.merit
  if aMerit.isNan && bMerit.isNan then Ordering.eq
  else if aMerit.isNan then Ordering.gt
  else if bMerit.isNan then Ordering.lt
  else
    match aMerit, bMerit with
    | Fl.fin x, Fl.fin y => if x < y then Ordering.lt else if x = y then Ordering.eq
                            else Ordering.gt
    | Fl.fin _, Fl.inf => Ordering.lt
    | Fl.fin _, Fl.ninf => Ordering.gt
    | Fl.inf, Fl.fin _ => Ordering.gt
    | Fl.inf, Fl.inf => Ordering.eq
    | Fl.inf, Fl.ninf => Ordering.gt
    | Fl.ninf, Fl.fin _ => Ordering.lt
    | Fl.ninf, Fl.inf => Ordering.lt
    | Fl.ninf, Fl.ninf => Ordering.eq
    | _, _ => Ordering.eq

/-- The non-strict order induced by the comparator (`cmp(a, b) ≠ Greater`);
a stable sort under the comparator is sorted with respect to it. -/
def suggLe (a b : AttributeSplitSuggestion) : Prop := meritOrdering a b ≠ Ordering.gt

instance : DecidableRel suggLe := fun _ _ => instDecidableNot

/-- Rust `best_suggestions.sort_by(..)` with the comparator above: a stable
sort, embedded as insertion sort (Rust's `sort_by` is stable, and any stable
sort agrees with insertion sort under a total preorder comparator). -/
def sortSuggestions (l : List AttributeSplitSuggestion) : List AttributeSplitSuggestion :=
  List.insertionSort suggLe l

/-- Rust `best_suggestions.last().unwrap()` after the sort in
`HoeffdingTree::split_node`: the best suggestion. -/
def bestSuggestion (l : List AttributeSplitSuggestion) : AttributeSplitSuggestion :=
  (sortSuggestions l).getLastD ⟨none, [], Fl.fin 0⟩

end HoeffdingTree

/-- Rank of a merit in the comparator's total preorder: NaN above `inf`, `inf`
above every finite value, finite values by magnitude, `-inf` below (an
auxiliary device for reasoning about the comparator, not part of the source). -/
def meritRank : Fl → ℕ × ℚ
  | Fl.nan => (3, 0)
  | Fl.inf => (2, 0)
  | Fl.fin q => (1, q)
  | Fl.ninf => (0, 0)


/-!
Hoeffding-bound split decision
(`src/classifiers/hoeffding_tree/hoeffding_tree.rs`, `compute_hoeffding_bound`
and `split_node`).  Merits and the bound are real-number arithmetic here; the
claim's formula involves `sqrt`, `ln`.
-/

/-- Suggestion as inspected by the split decision in `split_node`, which reads
only the optional test and the merit; modelled over the reals. -/
structure SuggestionR where
  splitTest : Option ℕ
  merit : ℝ

namespace HoeffdingTree

/-- Rust `HoeffdingTree::compute_hoeffding_bound`: a zero confidence is
replaced by `1e-7` inside `ln(1/δ)`; the bound is
`sqrt(((range·range) · ln(1/δ)) / (2·n))`. -/
noncomputable def computeHoeffdingBound (range confidence n : ℝ) : ℝ :=
  if confidence = 0 then
    Real.sqrt (((range * range) * Real.log (1 / 0.0000001)) / (2 * n))
  else
    Real.sqrt (((range * range) * Real.log (1 / confidence)) / (2 * n))

/-- The split decision of `HoeffdingTree::split_node`: no split when fewer than
two class-count entries are positive; with fewer than two suggestions, split
exactly when some suggestion exists; otherwise compare the top-two merit gap
against the Hoeffding bound, or the bound against the tie threshold.  The
suggestion list is the sorted list produced by `attempt_to_split`; class counts
are the purity side of the check and are modelled as exact rationals. -/
def splitNodeShouldSplit (classDist : List ℚ) (s : List SuggestionR)
    (range confidence tieThreshold weightSeen : ℝ) : Prop :=
  if (classDist.countP (fun v => decide (0 < v))) < 2 then False
  else if s.length < 2 then s ≠ []
  else
    let best := s.getLastD ⟨none, 0⟩
    let secondBest := s.getD (s.length - 2) ⟨none, 0⟩
    let hoeffdingBound := computeHoeffdingBound range confidence weightSeen
    best.merit - secondBest.merit > hoeffdingBound ∨ hoeffdingBound < tieThreshold

/-- The decision rule as the spec words it: `ε = sqrt(range² · ln(1/δ) / (2 ·
w_seen))` with `δ = 0` treated as `δ = 1e-7`; split exactly when
`best.merit − second.merit > ε` or `ε < tie_threshold`, and with fewer than two
suggestions exactly when the list is non-empty. -/
def splitDecisionSpec (s : List SuggestionR)
    (range confidence tieThreshold weightSeen : ℝ) : Prop :=
  if s.length < 2 then s ≠ []
  else
    let delta := if confidence = 0 then (0.0000001 : ℝ) else confidence
    let eps := Real.sqrt (range ^ 2 * Real.log (1 / delta) / (2 * weightSeen))
    (s.getLastD ⟨none, 0⟩).merit - (s.getD (s.length - 2) ⟨none, 0⟩).merit > eps ∨
      eps < tieThreshold

end HoeffdingTree

/-!
Memory-bounded leaf deactivation
(`src/classifiers/hoeffding_tree/hoeffding_tree.rs`, `enforce_tracker_limit`,
`extract_promise`; `calculate_promise` from
`src/classifiers/hoeffding_tree/nodes/learning_nodes/active_learning_node.rs`).
The function acts on the list of learning leaves collected by
`find_learning_nodes`; each found leaf is its concrete node kind plus its class
counts (the only data the promise ranking reads).  Class counts are modelled as
exact rationals.
-/

/-- Rust `LeafPredictionOption`. -/
inductive LeafPredictionOption where
  | majorityClass
  | naiveBayes
  | adaptiveNaiveBayes
deriving DecidableEq, Repr

/-- The four concrete learning-leaf types reachable from
`find_learning_nodes`: `ActiveLearningNode` (MC), `LearningNodeNB`,
`LearningNodeNBAdaptive`, `InactiveLearningNode`. -/
inductive NodeKind where
  | activeLearning
  | learningNB
  | learningNBAdaptive
  | inactiveLearning
deriving DecidableEq, Repr

/-- The node kind `new_learning_node_with_values` creates for a leaf-prediction
option. -/
def newLeafKind : LeafPredictionOption → NodeKind
  | LeafPredictionOption.majorityClass => NodeKind.activeLearning
  | LeafPredictionOption.naiveBayes => NodeKind.learningNB
  | LeafPredictionOption.adaptiveNaiveBayes => NodeKind.learningNBAdaptive

/-- A learning leaf as collected by `find_learning_nodes`: its concrete kind
and its observed class distribution. -/
structure FoundLeaf where
  kind : NodeKind
  counts : List ℚ
deriving DecidableEq, Repr

/-- The exact value of Rust `f64::MIN`, the start of the `fold(f64::MIN,
f64::max)` in `calculate_promise`. -/
def f64Min : ℚ := -((2 ^ 53 - 1) * 2 ^ 971)

/-- Rust `ActiveLearningNode::calculate_promise`: total weight minus the
maximum class count when the total is positive, else `0`. -/
def calculatePromise (counts : List ℚ) : ℚ :=
  let totalSeen := counts.sum
  if 0 < totalSeen then totalSeen - counts.foldl max f64Min else 0

/-- Rust `HoeffdingTree::extract_promise`: `calculate_promise` for an
`ActiveLearningNode`, `0.0` for every other node kind (including NB and
NB-adaptive leaves). -/
def extractPromise (f : FoundLeaf) : ℚ :=
  if f.kind = NodeKind.activeLearning then calculatePromise f.counts else 0

/-- The order used by the `sort_by` in `enforce_tracker_limit`:
`partial_cmp` on the extracted promises, `unwrap_or(Equal)`; promises are
rationals here, so this is the total order on the keys. -/
def promiseLe (a b : FoundLeaf) : Prop := extractPromise a ≤ extractPromise b

instance : DecidableRel promiseLe := fun a b =>
  inferInstanceAs (Decidable (extractPromise a ≤ extractPromise b))

instance : IsTotal FoundLeaf promiseLe := ⟨fun a b => le_total (extractPromise a) (extractPromise b)⟩

instance : IsTrans FoundLeaf promiseLe := ⟨fun _ _ _ h1 h2 => le_trans h1 h2⟩

/-- Tree state as read and written by `enforce_tracker_limit`. -/
structure TrackerState where
  activeLeafNodeCount : ℕ
  inactiveLeafNodeCount : ℕ
  activeLeafByteSizeEstimate : ℚ
  inactiveLeafByteSizeEstimate : ℚ
  byteSizeEstimateOverheadFraction : ℚ
  maxByteSizeOption : ℚ
  stopMemManagementOption : Bool
  growthAllowed : Bool
  leafPredictionOption : LeafPredictionOption
  leaves : List FoundLeaf
deriving DecidableEq, Repr

namespace HoeffdingTree

/-- The estimated memory usage computed at the top of
`enforce_tracker_limit`. -/
def memoryUsage (t : TrackerState) : ℚ :=
  ((t.activeLeafNodeCount : ℚ) * t.activeLeafByteSizeEstimate +
    (t.inactiveLeafNodeCount : ℚ) * t.inactiveLeafByteSizeEstimate) *
    t.byteSizeEstimateOverheadFraction

/-- The learning-node list sorted ascending by extracted promise, as built by
the `sort_by` call in `enforce_tracker_limit` (a stable sort; embedded as
insertion sort). -/
def sortedLeaves (t : TrackerState) : List FoundLeaf :=
  List.insertionSort promiseLe t.leaves

/-- The `while max_active < learning_nodes.len()` loop of
`enforce_tracker_limit`, searching for the largest active-leaf count whose
estimated usage fits the cap; the loop runs at most `len` times, made explicit
by a fuel argument that starts at `len`. -/
def computeMaxActiveGo (aEst iEst overhead cap : ℚ) (len : ℕ) : ℕ → ℕ → ℕ
  | 0, maxActive => maxActive
  | fuel + 1, maxActive =>
    if maxActive < len then
      let next := maxActive + 1
      let est := ((next : ℚ) * aEst + ((len - next : ℕ) : ℚ) * iEst) * overhead
      if est > cap then maxActive
      else computeMaxActiveGo aEst iEst overhead cap len fuel next
    else maxActive

/-- Result of the `max_active` search loop in `enforce_tracker_limit`. -/
def computeMaxActive (aEst iEst overhead cap : ℚ) (len : ℕ) : ℕ :=
  computeMaxActiveGo aEst iEst overhead cap len len 0

/-- The effect of the two index loops of `enforce_tracker_limit` on the sorted
leaf at position `i`: below the cutoff an `ActiveLearningNode` is deactivated
(other kinds are left untouched); at or above the cutoff an
`InactiveLearningNode` is reactivated into a fresh leaf of the tree's
configured kind (other kinds are left untouched). -/
def trackerTransform (newKind : NodeKind) (cutoff i : ℕ) (f : FoundLeaf) : FoundLeaf :=
  if i < cutoff then
    (if f.kind = NodeKind.activeLearning then { f with kind := NodeKind.inactiveLearning }
     else f)
  else
    (if f.kind = NodeKind.inactiveLearning then { f with kind := newKind } else f)

/-- The two index loops of `enforce_tracker_limit` over the sorted list, as the
positional application of `trackerTransform`. -/
def applyTrackerLimit (newKind : NodeKind) (cutoff : ℕ) : ℕ → List FoundLeaf → List FoundLeaf
  | _, [] => []
  | i, f :: rest =>
    trackerTransform newKind cutoff i f :: applyTrackerLimit newKind cutoff (i + 1) rest

/-- Rust `HoeffdingTree::enforce_tracker_limit`: when there are inactive
leaves or the usage estimate exceeds the cap, either stop growth (under
`stop_mem_management`) or sort the learning leaves by promise, compute the
cutoff `len - max_active`, deactivate the active leaves below it and
reactivate the inactive leaves above it, updating the two leaf counters. -/
def enforceTrackerLimit (t : TrackerState) : TrackerState :=
  if 0 < t.inactiveLeafNodeCount ∨ memoryUsage t > t.maxByteSizeOption then
    if t.stopMemManagementOption then { t with growthAllowed := false }
    else
      let sorted := sortedLeaves t
      let maxActive := computeMaxActive t.activeLeafByteSizeEstimate
        t.inactiveLeafByteSizeEstimate t.byteSizeEstimateOverheadFraction
        t.maxByteSizeOption sorted.length
      let cutoff := sorted.length - maxActive
      let deactivated := (sorted.take cutoff).countP
        (fun f => f.kind == NodeKind.activeLearning)
      let reactivated := (sorted.drop cutoff).countP
        (fun f => f.kind == NodeKind.inactiveLearning)
      { t with leaves := applyTrackerLimit (newLeafKind t.leafPredictionOption) cutoff 0 sorted,
               activeLeafNodeCount := t.activeLeafNodeCount - deactivated + reactivated,
               inactiveLeafNodeCount := t.inactiveLeafNodeCount + deactivated - reactivated }
  else t

end HoeffdingTree

/-!
Tree nodes and vote lookup (`src/classifiers/hoeffding_tree/nodes/*.rs` and
`HoeffdingTree::get_votes_for_instance`).  The five concrete node types become
one inductive; a conditional test trait object is embedded as its
branch-for-instance function, and observers (as in the Naive Bayes scorer) as
their probability function.
-/

/-- The concrete `dyn Node` types of the tree: the three active learning-leaf
kinds, the inactive leaf, and the split node, each holding its observed class
distribution; the split node also routes through a conditional test to
optional child slots. -/
inductive TreeNode where
  | activeLearning (observedClassDistribution : List Fl)
  | learningNB (observedClassDistribution : List Fl)
      (attributeObservers : List (Option ObserverFun))
  | learningNBAdaptive (observedClassDistribution : List Fl)
      (attributeObservers : List (Option ObserverFun))
      (mcCorrectWeight nbCorrectWeight : Fl)
  | inactiveLearning (observedClassDistribution : List Fl)
  | splitNode (observedClassDistribution : List Fl)
      (splitTest : RInstance → Option ℕ)
      (children : List (Option TreeNode))

/-- Data carrier `FoundNode` (its defining file is not among the sources;
modelled from the spec: the node reached by routing, the parent it was reached
from, and the parent branch index, any of which may be absent). -/
structure FoundNodeT where
  node : Option TreeNode
  parent : Option TreeNode
  parentBranch : ℤ

/-- Rust `filter_instance_to_leaf`: leaves return themselves; a split node asks
its test for a branch — a missing attribute (`None`) stops at the split node
itself, an empty child slot reports the split node as parent with no node, and
an existing child recurses. -/
def filterInstanceToLeaf : TreeNode → RInstance → Option TreeNode → ℤ → FoundNodeT
  | TreeNode.splitNode d test children, inst, parent, parentBranch =>
    match test inst with
    | some idx =>
      match h : children.getD idx none with
      | some child =>
        filterInstanceToLeaf child inst (some (TreeNode.splitNode d test children)) (idx : ℤ)
      | none => ⟨none, some (TreeNode.splitNode d test children), (idx : ℤ)⟩
    | none => ⟨some (TreeNode.splitNode d test children), parent, parentBranch⟩
  | n, _, parent, parentBranch => ⟨some n, parent, parentBranch⟩
termination_by n _ _ _ => sizeOf n
decreasing_by
  have hmem : some child ∈ children := by
    have := List.getD_eq_getElem?_getD children idx none
    rw [this] at h
    rcases hq : children[idx]? with _ | v
    · rw [hq] at h; simp at h
    · rw [hq] at h
      simp at h
      subst h
      exact List.getElem?_mem hq
  have h1 : sizeOf (some child) < sizeOf children := List.sizeOf_lt_of_mem hmem
  have h2 : sizeOf child < sizeOf (some child) := by simp
  simp only [TreeNode.splitNode.sizeOf_spec]
  omega

/-- The Hoeffding tree classifier state read by `get_votes_for_instance`: the
optional root and the NB-threshold option consulted by NB leaves. -/
structure HoeffdingTreeClassifier where
  treeRoot : Option TreeNode
  nbThresholdOption : Option ℕ := none

/-- Rust `Node::get_class_votes` of each concrete node type: MC leaves,
inactive leaves and split nodes return their class distribution; NB leaves use
Naive Bayes scoring once the configured threshold of seen weight is reached;
NB-adaptive leaves pick the strategy with the larger correct weight. -/
def getClassVotes (n : TreeNode) (inst : RInstance) (t : HoeffdingTreeClassifier) : List Fl :=
  match n with
  | TreeNode.activeLearning d => d
  | TreeNode.inactiveLearning d => d
  | TreeNode.splitNode d _ _ => d
  | TreeNode.learningNB d obs =>
    match t.nbThresholdOption with
    | some threshold =>
      if Fl.ge (flSum d) (Fl.fin (threshold : ℚ)) then
        NaiveBayes.doNaiveBayesPrediction inst d obs
      else d
    | none => d
  | TreeNode.learningNBAdaptive d obs mcCorrect nbCorrect =>
    if Fl.gt mcCorrect nbCorrect then d
    else NaiveBayes.doNaiveBayesPrediction inst d obs

/-- Rust `HoeffdingTree::get_votes_for_instance` (the `Classifier` impl): with
a root, route to a leaf and ask it (falling back to the parent when routing
produced no node, and to an empty vote vector when both are absent); with no
root, a zero vector of length `number_of_classes`. -/
def getVotesForInstance (t : HoeffdingTreeClassifier) (inst : RInstance) : List Fl :=
  match t.treeRoot with
  | some root =>
    let found := filterInstanceToLeaf root inst none (-1)
    match found.node.or found.parent with
    | some n => getClassVotes n inst t
    | none => []
  | none => List.replicate inst.numberOfClasses (Fl.fin 0)

/-!
Prequential evaluation loop (`src/tasks/prequential_evaluator.rs`, `run`).
The loop is driven by the number of remaining stream instances and the
processed-instance counter; its observable effects relevant here are the
RAM-hours updates and the emitted snapshots, identified by their
`instances_seen` value (instance payloads, votes and clock readings do not
affect which snapshots exist).  The CPU-time `max_seconds` break is a
real-time effect and is modelled as absent (no time limit configured).
-/

namespace PrequentialEvaluator

/-- The `while` loop of `PrequentialEvaluator::run`: pull an instance (stop on
stream end or on reaching `max_instances`), bump `processed`, test-then-train,
then a RAM-hours update every `mem_check_frequency` instances and a snapshot
every `sample_frequency` instances.  Returns the final `processed` counter, the
number of RAM-hours updates, and the `instances_seen` values of the emitted
snapshots. -/
def runLoop (sampleFrequency memCheckFrequency : ℕ) (maxInstances : Option ℕ) :
    ℕ → ℕ → ℕ × ℕ × List ℕ
  | 0, processed => (processed, 0, [])
  | remaining + 1, processed =>
    if (match maxInstances with | some n => decide (processed ≥ n) | none => false) = true then
      (processed, 0, [])
    else
      let p := processed + 1
      let bump := if p % memCheckFrequency = 0 then 1 else 0
      let snap := if p % sampleFrequency = 0 then [p] else []
      let rest := runLoop sampleFrequency memCheckFrequency maxInstances remaining p
      (rest.1, bump + rest.2.1, snap ++ rest.2.2)

/-- Rust `PrequentialEvaluator::run` for a stream of `streamLen` instances:
the loop, then one final RAM-hours update and one final snapshot,
unconditionally. -/
def run (sampleFrequency memCheckFrequency : ℕ) (maxInstances : Option ℕ)
    (streamLen : ℕ) : ℕ × ℕ × List ℕ :=
  let r := runLoop sampleFrequency memCheckFrequency maxInstances streamLen 0
  (r.1, r.2.1 + 1, r.2.2 ++ [r.1])

end PrequentialEvaluator

namespace GaussianEstimator

/-- Feeding a finite sequence of (value, weight) observations through
`add_observation`, left to right. -/
def observeAll (g : GaussianEstimator) (l : List (ℚ × ℚ)) : GaussianEstimator :=
  l.foldl (fun g p => g.addObservation (Fl.fin p.1) (Fl.fin p.2)) g

/-- Total weight `Σ wᵢ` of a list of (value, weight) observations. -/
def sumW (l : List (ℚ × ℚ)) : ℚ := (l.map Prod.snd).sum

/-- Weighted value sum `Σ wᵢ·xᵢ`. -/
def sumWX (l : List (ℚ × ℚ)) : ℚ := (l.map (fun p => p.2 * p.1)).sum

/-- Weighted square sum `Σ wᵢ·xᵢ²`. -/
def sumWXX (l : List (ℚ × ℚ)) : ℚ := (l.map (fun p => p.2 * p.1 * p.1)).sum

/-- Weighted sum of squared deviations from the weighted sample mean,
`Σ wᵢ·(xᵢ − x̄)²` — the numerator of the unbiased weighted sample variance. -/
def sumSqDev (l : List (ℚ × ℚ)) : ℚ :=
  (l.map (fun p => p.2 * (p.1 - sumWX l / sumW l) ^ 2)).sum

end GaussianEstimator

theorem fl_add_fin (a b : ℚ) : Fl.add (Fl.fin a) (Fl.fin b) = Fl.fin (a + b) := rfl

theorem fl_sub_fin (a b : ℚ) : Fl.sub (Fl.fin a) (Fl.fin b) = Fl.fin (a - b) := by
  show Fl.fin (a + -b) = Fl.fin (a - b)
  rw [← sub_eq_add_neg]

theorem fl_mul_fin (a b : ℚ) : Fl.mul (Fl.fin a) (Fl.fin b) = Fl.fin (a * b) := rfl

theorem fl_div_fin (a b : ℚ) (hb : b ≠ 0) :
    Fl.div (Fl.fin a) (Fl.fin b) = Fl.fin (a / b) := by
  simp [Fl.div, hb]

theorem fl_gt_fin (a b : ℚ) : Fl.gt (Fl.fin a) (Fl.fin b) = decide (b < a) := rfl

theorem fl_lt_fin (a b : ℚ) : Fl.lt (Fl.fin a) (Fl.fin b) = decide (a < b) := rfl

theorem fl_add_fin_fin_assoc (e : Fl) (a b : ℚ) :
    Fl.add (Fl.add e (Fl.fin a)) (Fl.fin b) = Fl.add e (Fl.fin (a + b)) := by
  cases e <;> simp [Fl.add, add_assoc]

theorem flSum_map_fin_aux (l : List ℚ) (a : ℚ) :
    (l.map Fl.fin).foldl Fl.add (Fl.fin a) = Fl.fin (a + l.sum) := by
  induction l generalizing a with
  | nil => simp
  | cons x xs ih => simp [ih, fl_add_fin, add_assoc]

theorem flSum_map_fin (l : List ℚ) : flSum (l.map Fl.fin) = Fl.fin l.sum := by
  simpa using flSum_map_fin_aux l 0

theorem addObservation_fin_pos (W m v x w : ℚ) (hW : 0 < W) (h0 : W + w ≠ 0) :
    GaussianEstimator.addObservation ⟨Fl.fin W, Fl.fin m, Fl.fin v⟩ (Fl.fin x) (Fl.fin w) =
      ⟨Fl.fin (W + w), Fl.fin (m + w * (x - m) / (W + w)),
        Fl.fin (v + w * (x - m) * (x - (m + w * (x - m) / (W + w))))⟩ := by
  simp [GaussianEstimator.addObservation, Fl.isInfinite, Fl.isNan, fl_gt_fin, hW,
    fl_add_fin, fl_sub_fin, fl_mul_fin, fl_div_fin _ _ h0]

theorem addObservation_fin_nonpos (W m v x w : ℚ) (hW : ¬ 0 < W) :
    GaussianEstimator.addObservation ⟨Fl.fin W, Fl.fin m, Fl.fin v⟩ (Fl.fin x) (Fl.fin w) =
      ⟨Fl.fin w, Fl.fin x, Fl.fin v⟩ := by
  simp [GaussianEstimator.addObservation, Fl.isInfinite, Fl.isNan, fl_gt_fin, hW]

theorem ensureLen_length {α : Type} (l : List α) (i : ℕ) (pad : α) :
    (ensureLen l i pad).length = max l.length (i + 1) := by
  simp [ensureLen]
  omega

theorem updateAt_length {α : Type} (l : List α) (i : ℕ) (f : α → α) :
    (updateAt l i f).length = l.length := by
  induction l generalizing i with
  | nil => rfl
  | cons x xs ih =>
    cases i with
    | zero => rfl
    | succ n => simp [updateAt, ih]

theorem ensureLen_of_le {α : Type} (l : List α) (i : ℕ) (pad : α) (h : i + 1 ≤ l.length) :
    ensureLen l i pad = l := by
  simp [ensureLen, Nat.sub_eq_zero_of_le h]

theorem updateAt_updateAt {α : Type} (l : List α) (i : ℕ) (f g : α → α) :
    updateAt (updateAt l i f) i g = updateAt l i (fun x => g (f x)) := by
  induction l generalizing i with
  | nil => rfl
  | cons x xs ih =>
    cases i with
    | zero => rfl
    | succ n => simp [updateAt, ih]

theorem suggLe_iff (a b : AttributeSplitSuggestion) :
    HoeffdingTree.suggLe a b ↔
      (meritRank a.merit).1 < (meritRank b.merit).1 ∨
        ((meritRank a.merit).1 = (meritRank b.merit).1 ∧
          (meritRank a.merit).2 ≤ (meritRank b.merit).2) := by
  rcases a with ⟨ta, da, ma⟩
  rcases b with ⟨tb, db, mb⟩
  cases ma <;> cases mb <;>
    simp [HoeffdingTree.suggLe, HoeffdingTree.meritOrdering, Fl.isNan, meritRank]
  rename_i x y
  rcases lt_trichotomy x y with h | h | h
  · simp [h, le_of_lt h]
  · simp [h]
  · simp [if_neg (lt_asymm h), if_neg (ne_of_gt h), not_le_of_lt h, le_of_lt h, ne_of_gt h]

theorem suggLe_total (a b : AttributeSplitSuggestion) :
    HoeffdingTree.suggLe a b ∨ HoeffdingTree.suggLe b a := by
  rw [suggLe_iff, suggLe_iff]
  rcases lt_trichotomy (meritRank a.merit).1 (meritRank b.merit).1 with h | h | h
  · exact Or.inl (Or.inl h)
  · rcases le_total (meritRank a.merit).2 (meritRank b.merit).2 with h2 | h2
    · exact Or.inl (Or.inr ⟨h, h2⟩)
    · exact Or.inr (Or.inr ⟨h.symm, h2⟩)
  · exact Or.inr (Or.inl h)


theorem suggLe_trans (a b c : AttributeSplitSuggestion) :
    HoeffdingTree.suggLe a b → HoeffdingTree.suggLe b c → HoeffdingTree.suggLe a c := by
  rw [suggLe_iff, suggLe_iff, suggLe_iff]
  rintro (h1 | ⟨h1, h1q⟩) (h2 | ⟨h2, h2q⟩)
  · exact Or.inl (lt_trans h1 h2)
  · exact Or.inl (lt_of_lt_of_eq h1 h2)
  · exact Or.inl (lt_of_eq_of_lt h1 h2)
  · exact Or.inr ⟨h1.trans h2, h1q.trans h2q⟩


/-- C9: for every instance, when the Hoeffding tree has no root (no training
instance has been seen), `get_votes_for_instance` returns a vector of zeros
whose length is the instance's `number_of_classes()`, rather than an empty
vector or an error. -/
theorem getVotesForInstance_no_root (t : HoeffdingTreeClassifier) (inst : RInstance)
    (h : t.treeRoot = none) :
    getVotesForInstance t inst = List.replicate inst.numberOfClasses (Fl.fin 0) := by
  simp [getVotesForInstance, h]

/-- Witness for C9: the empty tree votes `[0, 0]` on a two-class instance. -/
theorem getVotesForInstance_no_root_witness :
    getVotesForInstance ⟨none, none⟩ ⟨[Fl.fin 3, Fl.nan], 1, 2, Fl.fin 1⟩ =
      [Fl.fin 0, Fl.fin 0] :=
  getVotesForInstance_no_root ⟨none, none⟩ ⟨[Fl.fin 3, Fl.nan], 1, 2, Fl.fin 1⟩ rfl

/-- C8 (counterexample): the claim says every observer ignores non-finite
weights, but the nominal observer has no weight guard: observing weight NaN
changes its accumulated total weight from `0.0` to NaN. -/
theorem nominal_nan_weight_changes_state :
    (NominalAttributeClassObserver.new.observeAttributeClass (Fl.fin 0) 0
        Fl.nan).totalWeightObserved = Fl.nan ∧
      NominalAttributeClassObserver.new.totalWeightObserved = Fl.fin 0 := by
  constructor
  · norm_num [NominalAttributeClassObserver.new,
      NominalAttributeClassObserver.observeAttributeClass, Fl.isNan, Fl.add]
  · rfl

/-- C8 (amended): the Gaussian numeric observer ignores every observation with
a non-finite weight (NaN or an infinity), leaving its whole state unchanged;
the nominal observer has no such guard. -/
theorem gaussian_observer_ignores_nonfinite_weight
    (o : GaussianNumericAttributeClassObserver) (x : Fl) (c : ℕ) (w : Fl)
    (hw : w.isFinite = false) :
    o.observeAttributeClass x c w = o := by
  simp [GaussianNumericAttributeClassObserver.observeAttributeClass, hw]

/-- Witness for C8's amended theorem: an infinite-weight observation leaves a
fresh Gaussian observer unchanged. -/
theorem gaussian_observer_ignores_nonfinite_weight_witness :
    GaussianNumericAttributeClassObserver.new.observeAttributeClass (Fl.fin 5) 1
        Fl.inf = GaussianNumericAttributeClassObserver.new :=
  gaussian_observer_ignores_nonfinite_weight GaussianNumericAttributeClassObserver.new
    (Fl.fin 5) 1 Fl.inf rfl

/-- Characterization of the prequential loop: the final processed counter is at
least the initial one, and the snapshots emitted inside the loop are exactly
the processed counts in `(processed, final]` that are multiples of the sample
frequency, in increasing order. -/
theorem runLoop_spec (sf mf : ℕ) (mi : Option ℕ) (remaining : ℕ) :
    ∀ processed : ℕ,
      processed ≤ (PrequentialEvaluator.runLoop sf mf mi remaining processed).1 ∧
        (PrequentialEvaluator.runLoop sf mf mi remaining processed).2.2 =
          (List.range' (processed + 1)
            ((PrequentialEvaluator.runLoop sf mf mi remaining processed).1 - processed)).filter
            (fun k => decide (k % sf = 0)) := by
  induction remaining with
  | zero => intro p; simp [PrequentialEvaluator.runLoop]
  | succ r ih =>
    intro p
    cases hg : (match mi with | some n => decide (p ≥ n) | none => false) with
    | true => simp [PrequentialEvaluator.runLoop, hg]
    | false =>
      obtain ⟨h1, h2⟩ := ih (p + 1)
      simp only [PrequentialEvaluator.runLoop, hg, Bool.false_eq_true, if_false]
      refine ⟨le_trans (Nat.le_succ p) h1, ?_⟩
      rw [h2]
      have hsplit : (PrequentialEvaluator.runLoop sf mf mi r (p + 1)).1 - p =
          ((PrequentialEvaluator.runLoop sf mf mi r (p + 1)).1 - (p + 1)) + 1 := by omega
      rw [hsplit, List.range'_succ, List.filter_cons]
      by_cases hp : (p + 1) % sf = 0 <;> simp [hp]

/-- C10: `PrequentialEvaluator::run` always emits one final RAM-hours update
and one final snapshot after the loop exits; consequently, when the total
number of processed instances is a nonzero multiple of `sample_frequency`, the
snapshot sequence ends with two snapshots carrying the same `instances_seen`
value (the last periodic snapshot and the final one). -/
theorem run_final_snapshot (sf mf streamLen : ℕ) (mi : Option ℕ) (hsf : 0 < sf) :
    1 ≤ (PrequentialEvaluator.run sf mf mi streamLen).2.1 ∧
      (PrequentialEvaluator.run sf mf mi streamLen).2.2.getLast? =
        some (PrequentialEvaluator.run sf mf mi streamLen).1 ∧
      ((PrequentialEvaluator.run sf mf mi streamLen).1 % sf = 0 →
        0 < (PrequentialEvaluator.run sf mf mi streamLen).1 →
        (PrequentialEvaluator.run sf mf mi streamLen).2.2.dropLast.getLast? =
          some (PrequentialEvaluator.run sf mf mi streamLen).1) := by
  obtain ⟨h1, h2⟩ := runLoop_spec sf mf mi streamLen 0
  refine ⟨Nat.le_add_left 1 _, ?_, ?_⟩
  · simp [PrequentialEvaluator.run]
  · intro hmod hpos
    simp only [PrequentialEvaluator.run, List.dropLast_concat] at hmod hpos ⊢
    rw [h2]
    have hones : (PrequentialEvaluator.runLoop sf mf mi streamLen 0).1 - 0 =
        ((PrequentialEvaluator.runLoop sf mf mi streamLen 0).1 - 1) + 1 := by omega
    rw [hones, List.range'_concat, List.filter_append]
    have heq : 0 + 1 + 1 * ((PrequentialEvaluator.runLoop sf mf mi streamLen 0).1 - 1) =
        (PrequentialEvaluator.runLoop sf mf mi streamLen 0).1 := by omega
    rw [heq]
    simp [List.getLast?_append, hmod]
/-- Witness for C10: a 10-instance stream with sample frequency 5 ends with two
snapshots at `instances_seen = 10`. -/
theorem run_final_snapshot_witness :
    1 ≤ (PrequentialEvaluator.run 5 7 none 10).2.1 ∧
      (PrequentialEvaluator.run 5 7 none 10).2.2.getLast? =
        some (PrequentialEvaluator.run 5 7 none 10).1 ∧
      ((PrequentialEvaluator.run 5 7 none 10).1 % 5 = 0 →
        0 < (PrequentialEvaluator.run 5 7 none 10).1 →
        (PrequentialEvaluator.run 5 7 none 10).2.2.dropLast.getLast? =
          some (PrequentialEvaluator.run 5 7 none 10).1) :=
  run_final_snapshot 5 7 10 none (by decide)

theorem computeGini_map_fin_aux (S : ℚ) (hS : S ≠ 0) (d : List ℚ) :
    ∀ a : ℚ,
      (d.map Fl.fin).foldl
          (fun gini i => Fl.sub gini (Fl.powf2 (Fl.div i (Fl.fin S)))) (Fl.fin a) =
        Fl.fin (a - (d.map (fun c => (c / S) ^ 2)).sum) := by
  induction d with
  | nil => intro a; simp
  | cons c t ih =>
    intro a
    simp only [List.map_cons, List.foldl_cons, fl_div_fin c S hS]
    rw [show Fl.powf2 (Fl.fin (c / S)) = Fl.fin (c / S * (c / S)) from rfl, fl_sub_fin, ih]
    congr 1
    simp only [List.map_cons, List.sum_cons]
    ring

theorem computeGini_map_fin (d : List ℚ) (S : ℚ) (hS : S ≠ 0) :
    GiniSplitCriterion.computeGini (d.map Fl.fin) (Fl.fin S) =
      Fl.fin (1 - (d.map (fun c => (c / S) ^ 2)).sum) :=
  computeGini_map_fin_aux S hS d 1

theorem giniFold_aux (W : ℚ) (hW : 0 < W) (post : List (List ℚ)) :
    ∀ a : ℚ, (∀ d ∈ post, 0 < d.sum) →
      post.foldl
          (fun g d =>
            Fl.add g (Fl.mul (Fl.div (Fl.fin d.sum) (Fl.fin W))
              (GiniSplitCriterion.computeGini (d.map Fl.fin) (Fl.fin d.sum))))
          (Fl.fin a) =
        Fl.fin
          (a + (post.map
            (fun d => (d.sum / W) * (1 - (d.map (fun c => (c / d.sum) ^ 2)).sum))).sum) := by
  induction post with
  | nil => intro a _; simp
  | cons d t ih =>
    intro a hpos
    have hd : 0 < d.sum := hpos d (List.mem_cons_self d t)
    rw [List.foldl_cons]
    rw [show Fl.add (Fl.fin a) (Fl.mul (Fl.div (Fl.fin d.sum) (Fl.fin W))
          (GiniSplitCriterion.computeGini (d.map Fl.fin) (Fl.fin d.sum))) =
        Fl.fin (a + d.sum / W * (1 - (d.map (fun c => (c / d.sum) ^ 2)).sum)) by
      rw [computeGini_map_fin d d.sum (ne_of_gt hd), fl_div_fin d.sum W (ne_of_gt hW),
        fl_mul_fin, fl_add_fin]]
    rw [ih (a + d.sum / W * (1 - (d.map (fun c => (c / d.sum) ^ 2)).sum))
      (fun x hx => hpos x (List.mem_cons_of_mem d hx))]
    congr 1
    simp only [List.map_cons, List.sum_cons]
    ring

/-- C2 (amended): when every post-split branch has positive total weight, the
Gini merit equals `1 − Σᵢ (Wᵢ/W)·(1 − Σ_c (post[i][c]/Wᵢ)²)` as the claim
states; the code's guard, however, checks only the total weight `W > 0`, so a
zero-weight branch with a nonempty distribution divides `0/0` and makes the
merit NaN (see the counterexample). -/
theorem getMeritOfSplit_fin (pre : List Fl) (post : List (List ℚ))
    (hpos : ∀ d ∈ post, 0 < d.sum) :
    GiniSplitCriterion.getMeritOfSplit pre (post.map (fun d => d.map Fl.fin)) =
      Fl.fin (GiniSplitCriterion.giniMeritSpec post) := by
  simp only [GiniSplitCriterion.getMeritOfSplit, GiniSplitCriterion.giniMeritSpec]
  cases hpost : post with
  | nil => simp [flSum, fl_sub_fin]
  | cons d0 t0 =>
    rw [← hpost]
    have hne : post ≠ [] := by rw [hpost]; exact List.cons_ne_nil d0 t0
    have hW : 0 < (post.map List.sum).sum := by
      apply List.sum_pos
      · intro x hx
        obtain ⟨d, hd, rfl⟩ := List.mem_map.1 hx
        exact hpos d hd
      · simpa using hne
    have hmaps : (post.map (fun d => d.map Fl.fin)).map flSum =
        (post.map List.sum).map Fl.fin := by
      simp only [List.map_map]
      exact List.map_congr_left (fun d _ => flSum_map_fin d)
    have hgt : Fl.gt (Fl.fin (post.map List.sum).sum) (Fl.fin 0) = true := by
      rw [fl_gt_fin]; exact decide_eq_true hW
    rw [hmaps, flSum_map_fin, List.map_map, List.zip_map', List.foldl_map]
    simp only [flSum_map_fin, hgt, if_true, Function.comp_apply]
    rw [giniFold_aux (post.map List.sum).sum hW post 0 hpos, fl_sub_fin]
    norm_num

/-- C2 (counterexample): a zero-weight branch with a nonempty distribution does
not contribute zero — it makes the whole merit NaN (`0/0` inside
`compute_gini`, and `0 * NaN = NaN` in the accumulation), contradicting the
claim that the merit is never NaN on account of a zero-weight branch. -/
theorem getMeritOfSplit_zero_weight_branch_nan :
    GiniSplitCriterion.getMeritOfSplit []
      [[Fl.fin 0, Fl.fin 0], [Fl.fin 1, Fl.fin 1]] = Fl.nan := by
  norm_num [GiniSplitCriterion.getMeritOfSplit, GiniSplitCriterion.computeGini,
    flSum, Fl.add, Fl.div, Fl.gt, Fl.lt, Fl.mul, Fl.sub, Fl.neg, Fl.powf2]

/-- Witness for C2's amended theorem: a two-branch split with branch weights
`1` and `2` out of `3`. -/
theorem getMeritOfSplit_fin_witness :
    GiniSplitCriterion.getMeritOfSplit []
        [[Fl.fin 1, Fl.fin 0], [Fl.fin 1, Fl.fin 1]] =
      Fl.fin (GiniSplitCriterion.giniMeritSpec [[1, 0], [1, 1]]) := by
  have h := getMeritOfSplit_fin [] [[1, 0], [1, 1]] (by norm_num)
  simpa using h

/-- C1 (counterexample): with class counts `[1, 1]` and one nominal observer
that has only seen class `0`, the observer answers `None` for class `1`; the
claim says the attribute is then skipped (vote `1/2`), but the code multiplies
by `unwrap_or(0.0)` and the vote for class `1` is `0`. -/
theorem doNaiveBayesPrediction_none_multiplies_zero :
    NaiveBayes.doNaiveBayesPrediction ⟨[Fl.fin 0, Fl.nan], 1, 2, Fl.fin 1⟩
        [Fl.fin 1, Fl.fin 1]
        [some ((NominalAttributeClassObserver.new.observeAttributeClass (Fl.fin 0) 0
          (Fl.fin 1)).probabilityOfAttributeValueGivenClass)] =
      [Fl.fin (1 / 2), Fl.fin 0] ∧
    NaiveBayes.doNaiveBayesPredictionSpec ⟨[Fl.fin 0, Fl.nan], 1, 2, Fl.fin 1⟩
        [Fl.fin 1, Fl.fin 1]
        [some ((NominalAttributeClassObserver.new.observeAttributeClass (Fl.fin 0) 0
          (Fl.fin 1)).probabilityOfAttributeValueGivenClass)] =
      [Fl.fin (1 / 2), Fl.fin (1 / 2)] ∧
    [Fl.fin (1 / 2), Fl.fin 0] ≠ [Fl.fin (1 / 2), Fl.fin (1 / 2)] := by
  refine ⟨?_, ?_, ?_⟩ <;>
    norm_num [NaiveBayes.doNaiveBayesPrediction, NaiveBayes.doNaiveBayesPredictionSpec,
      NaiveBayes.modelAttIndexToInstanceAttIndex,
      NominalAttributeClassObserver.new, NominalAttributeClassObserver.observeAttributeClass,
      NominalAttributeClassObserver.probabilityOfAttributeValueGivenClass,
      RInstance.isMissingAtIndex, RInstance.valueAtIndex, RInstance.numberOfAttributes,
      ensureLen, updateAt, flSum, Fl.add, Fl.div, Fl.mul, Fl.isNan, Fl.toUsize,
      List.range_succ, Int.floor_zero]

theorem foldl_skip_filterMap {β : Type} (g : β → Option Fl) (l : List β) :
    ∀ a : Fl,
      l.foldl (fun s i => match g i with | none => s | some p => Fl.mul s p) a =
        (l.filterMap g).foldl Fl.mul a := by
  induction l with
  | nil => intro a; rfl
  | cons x xs ih =>
    intro a
    cases hg : g x <;> simp [List.filterMap_cons, hg, ih]

/-- C1 (amended): each Naive Bayes vote equals the class prior
`counts[k] / Σ counts` multiplied (left to right) by the factor of every model
attribute that is not skipped, where an attribute is skipped when its value is
missing, its observer slot is absent, or its value lookup is out of range — and
where a present observer's `None` answer yields the factor `0.0`
(`unwrap_or(0.0)`), zeroing the vote instead of being skipped. -/
theorem doNaiveBayesPrediction_factors (inst : RInstance) (counts : List Fl)
    (observers : List (Option ObserverFun)) (k : ℕ) (hk : k < counts.length) :
    (NaiveBayes.doNaiveBayesPrediction inst counts observers).get? k =
      some (((List.range (inst.numberOfAttributes - 1)).filterMap
          (NaiveBayes.nbFactor inst observers k)).foldl Fl.mul
        (Fl.div ((counts.get? k).getD (Fl.fin 0)) (flSum counts))) := by
  unfold NaiveBayes.doNaiveBayesPrediction
  rw [List.get?_map, List.get?_range (by simpa using hk)]
  rw [← foldl_skip_filterMap, Option.map_some']
  congr 1
  apply List.foldl_ext
  intro s i hi
  simp only [NaiveBayes.nbFactor]
  by_cases hm :
      (inst.isMissingAtIndex
        (NaiveBayes.modelAttIndexToInstanceAttIndex i inst.classIndex)).getD true = true
  · simp [hm]
  · simp only [hm, if_false, Bool.false_eq_true]
    rcases ho : observers.get? i with _ | op
    · simp [ho]
    · rcases op with _ | obs
      · simp [ho]
      · rcases hv : inst.valueAtIndex
            (NaiveBayes.modelAttIndexToInstanceAttIndex i inst.classIndex) with _ | x
        · simp [ho, hv]
        · simp [ho, hv]

/-- Witness for C1's amended theorem at the counterexample input and class 1. -/
theorem doNaiveBayesPrediction_factors_witness :
    (NaiveBayes.doNaiveBayesPrediction ⟨[Fl.fin 0, Fl.nan], 1, 2, Fl.fin 1⟩
        [Fl.fin 1, Fl.fin 1]
        [some ((NominalAttributeClassObserver.new.observeAttributeClass (Fl.fin 0) 0
          (Fl.fin 1)).probabilityOfAttributeValueGivenClass)]).get? 1 =
      some (((List.range
            ((⟨[Fl.fin 0, Fl.nan], 1, 2, Fl.fin 1⟩ : RInstance).numberOfAttributes - 1)).filterMap
          (NaiveBayes.nbFactor ⟨[Fl.fin 0, Fl.nan], 1, 2, Fl.fin 1⟩
            [some ((NominalAttributeClassObserver.new.observeAttributeClass (Fl.fin 0) 0
              (Fl.fin 1)).probabilityOfAttributeValueGivenClass)] 1)).foldl Fl.mul
        (Fl.div (([Fl.fin 1, Fl.fin 1].get? 1).getD (Fl.fin 0))
          (flSum [Fl.fin 1, Fl.fin 1]))) :=
  doNaiveBayesPrediction_factors ⟨[Fl.fin 0, Fl.nan], 1, 2, Fl.fin 1⟩
    [Fl.fin 1, Fl.fin 1]
    [some ((NominalAttributeClassObserver.new.observeAttributeClass (Fl.fin 0) 0
      (Fl.fin 1)).probabilityOfAttributeValueGivenClass)] 1 (by decide)

theorem suggLe_nan_right (a b : AttributeSplitSuggestion) (ha : a.merit.isNan = true)
    (h : HoeffdingTree.suggLe a b) : b.merit.isNan = true := by
  by_cases hb : b.merit.isNan = true
  · exact hb
  · exact absurd (by simp [HoeffdingTree.meritOrdering, ha, hb]) h

/-- C5 (counterexample): with one valid-merit suggestion and one NaN-merit
suggestion, the sort places NaN last and the engine's `last()` choice selects
the NaN-merit suggestion as best — so a valid merit does not beat NaN,
contradicting the claim that NaN is never selected when a valid merit is
present. -/
theorem bestSuggestion_nan_beats_valid :
    (HoeffdingTree.bestSuggestion
        [⟨some 0, [], Fl.fin (1 / 2)⟩, ⟨some 1, [], Fl.nan⟩]).merit = Fl.nan ∧
      (⟨some 0, [], Fl.fin (1 / 2)⟩ : AttributeSplitSuggestion) ∈
        [(⟨some 0, [], Fl.fin (1 / 2)⟩ : AttributeSplitSuggestion),
          ⟨some 1, [], Fl.nan⟩] ∧
      (⟨some 0, [], Fl.fin (1 / 2)⟩ : AttributeSplitSuggestion).merit.isNan = false := by
  refine ⟨rfl, List.mem_cons_self _ _, rfl⟩

/-- C5 (amended): the suggestion sort is ascending by merit with every
NaN-merit suggestion placed after all non-NaN merits, and the engine takes the
last element of the sorted list as best (and `suggestions[len-2]` as
second-best); consequently, whenever a NaN-merit suggestion is present, the
best suggestion has NaN merit — a valid merit never beats NaN. -/
theorem sortSuggestions_sorted_and_nan_best (l : List AttributeSplitSuggestion)
    (s : AttributeSplitSuggestion) (hs : s ∈ l) (hnan : s.merit.isNan = true) :
    List.Sorted HoeffdingTree.suggLe (HoeffdingTree.sortSuggestions l) ∧
      (HoeffdingTree.bestSuggestion l).merit.isNan = true := by
  haveI : IsTotal AttributeSplitSuggestion HoeffdingTree.suggLe := ⟨suggLe_total⟩
  haveI : IsTrans AttributeSplitSuggestion HoeffdingTree.suggLe :=
    ⟨fun a b c => suggLe_trans a b c⟩
  have hsort : List.Sorted HoeffdingTree.suggLe (HoeffdingTree.sortSuggestions l) :=
    List.sorted_insertionSort HoeffdingTree.suggLe l
  refine ⟨hsort, ?_⟩
  have hmem : s ∈ HoeffdingTree.sortSuggestions l := by
    simpa [HoeffdingTree.sortSuggestions] using hs
  have hne : HoeffdingTree.sortSuggestions l ≠ [] := by
    intro h
    rw [h] at hmem
    exact absurd hmem (List.not_mem_nil s)
  rw [HoeffdingTree.bestSuggestion, List.getLastD_eq_getLast?,
    List.getLast?_eq_getLast _ hne, Option.getD_some]
  obtain ⟨i, hi⟩ := List.mem_iff_get.1 hmem
  rw [List.getLast_eq_get]
  rcases lt_or_eq_of_le (Nat.le_sub_one_of_lt i.isLt) with hlt | heq
  · have hrel := hsort.rel_get_of_lt
      (show i < (⟨(HoeffdingTree.sortSuggestions l).length - 1, by omega⟩ :
        Fin (HoeffdingTree.sortSuggestions l).length) from hlt)
    exact suggLe_nan_right _ _ (hi ▸ hnan) hrel
  · rw [show (⟨(HoeffdingTree.sortSuggestions l).length - 1, by omega⟩ :
        Fin (HoeffdingTree.sortSuggestions l).length) = i from Fin.ext heq.symm, hi]
    exact hnan

/-- Witness for C5's amended theorem on a two-element list with one valid and
one NaN merit. -/
theorem sortSuggestions_sorted_and_nan_best_witness :
    List.Sorted HoeffdingTree.suggLe (HoeffdingTree.sortSuggestions
        [⟨some 0, [], Fl.fin (1 / 2)⟩, ⟨some 1, [], Fl.nan⟩]) ∧
      (HoeffdingTree.bestSuggestion
        [⟨some 0, [], Fl.fin (1 / 2)⟩, ⟨some 1, [], Fl.nan⟩]).merit.isNan = true :=
  sortSuggestions_sorted_and_nan_best
    [⟨some 0, [], Fl.fin (1 / 2)⟩, ⟨some 1, [], Fl.nan⟩] ⟨some 1, [], Fl.nan⟩
    (List.mem_cons_of_mem _ (List.mem_cons_self _ _)) rfl

/-- C4: given the purity precondition of a split attempt (at least two positive
class-count entries), the engine's split decision is exactly the spec's rule:
with fewer than two suggestions it splits exactly when the list is non-empty,
otherwise it splits exactly when `best.merit − second.merit > ε` or
`ε < tie_threshold`, with `ε = sqrt(range² · ln(1/δ) / (2 · w_seen))` and
`δ = 0` treated as `1e-7`. -/
theorem splitNodeShouldSplit_iff_spec (classDist : List ℚ) (s : List SuggestionR)
    (range confidence tieThreshold weightSeen : ℝ)
    (hpure : 2 ≤ classDist.countP (fun v => decide (0 < v))) :
    HoeffdingTree.splitNodeShouldSplit classDist s range confidence tieThreshold weightSeen ↔
      HoeffdingTree.splitDecisionSpec s range confidence tieThreshold weightSeen := by
  unfold HoeffdingTree.splitNodeShouldSplit HoeffdingTree.splitDecisionSpec
  rw [if_neg (by omega)]
  by_cases hl : s.length < 2
  · simp [hl]
  · simp only [hl, if_false]
    have hb : HoeffdingTree.computeHoeffdingBound range confidence weightSeen =
        Real.sqrt (range ^ 2 *
          Real.log (1 / (if confidence = 0 then (0.0000001 : ℝ) else confidence)) /
          (2 * weightSeen)) := by
      unfold HoeffdingTree.computeHoeffdingBound
      by_cases hc : confidence = 0 <;> simp only [hc, if_true, if_false] <;> congr 1 <;> ring
    rw [hb]

/-- Witness for C4 on a two-class distribution and a single suggestion. -/
theorem splitNodeShouldSplit_iff_spec_witness :
    HoeffdingTree.splitNodeShouldSplit [1, 1] [⟨some 0, 1⟩] 1 0 (5 / 100) 10 ↔
      HoeffdingTree.splitDecisionSpec [⟨some 0, 1⟩] 1 0 (5 / 100) 10 :=
  splitNodeShouldSplit_iff_spec [1, 1] [⟨some 0, 1⟩] 1 0 (5 / 100) 10 (by decide)


theorem sumW_pos (l : List (ℚ × ℚ)) (hpos : ∀ p ∈ l, 0 < p.2) (hne : l ≠ []) :
    0 < GaussianEstimator.sumW l := by
  apply List.sum_pos
  · intro x hx
    obtain ⟨p, hp, rfl⟩ := List.mem_map.1 hx
    exact hpos p hp
  · simpa using hne

theorem observeAll_new_eq (l : List (ℚ × ℚ)) (hpos : ∀ p ∈ l, 0 < p.2) :
    GaussianEstimator.observeAll GaussianEstimator.new l =
      ⟨Fl.fin (GaussianEstimator.sumW l),
        Fl.fin (GaussianEstimator.sumWX l / GaussianEstimator.sumW l),
        Fl.fin (GaussianEstimator.sumWXX l -
          GaussianEstimator.sumWX l ^ 2 / GaussianEstimator.sumW l)⟩ := by
  induction l using List.reverseRecOn with
  | nil =>
    simp [GaussianEstimator.observeAll, GaussianEstimator.new, GaussianEstimator.sumW,
      GaussianEstimator.sumWX, GaussianEstimator.sumWXX]
  | append_singleton t p ih =>
    have hpt : ∀ q ∈ t, 0 < q.2 := fun q hq => hpos q (List.mem_append_left _ hq)
    have hp : 0 < p.2 := hpos p (List.mem_append_right _ (List.mem_singleton_self p))
    have hp2 : p.2 ≠ 0 := ne_of_gt hp
    have hfold : GaussianEstimator.observeAll GaussianEstimator.new (t ++ [p]) =
        (GaussianEstimator.observeAll GaussianEstimator.new t).addObservation
          (Fl.fin p.1) (Fl.fin p.2) := by
      simp [GaussianEstimator.observeAll, List.foldl_append]
    have hWapp : GaussianEstimator.sumW (t ++ [p]) = GaussianEstimator.sumW t + p.2 := by
      simp [GaussianEstimator.sumW]
    have hXapp : GaussianEstimator.sumWX (t ++ [p]) =
        GaussianEstimator.sumWX t + p.2 * p.1 := by
      simp [GaussianEstimator.sumWX]
    have hXXapp : GaussianEstimator.sumWXX (t ++ [p]) =
        GaussianEstimator.sumWXX t + p.2 * p.1 * p.1 := by
      simp [GaussianEstimator.sumWXX]
    rw [hfold, ih hpt, hWapp, hXapp, hXXapp]
    by_cases ht : t = []
    · subst ht
      have hz1 : GaussianEstimator.sumW ([] : List (ℚ × ℚ)) = 0 := rfl
      have hz2 : GaussianEstimator.sumWX ([] : List (ℚ × ℚ)) = 0 := rfl
      have hz3 : GaussianEstimator.sumWXX ([] : List (ℚ × ℚ)) = 0 := rfl
      rw [hz1, hz2, hz3]
      norm_num
      rw [addObservation_fin_nonpos 0 0 0 p.1 p.2 (by norm_num)]
      have e2 : p.2 * p.1 / p.2 = p.1 := by field_simp
      have e3 : p.2 * p.1 * p.1 - (p.2 * p.1) ^ 2 / p.2 = 0 := by field_simp; ring
      rw [e2, e3]
    · have hWt : 0 < GaussianEstimator.sumW t := sumW_pos t hpt ht
      have hWt0 : GaussianEstimator.sumW t ≠ 0 := ne_of_gt hWt
      have h0 : GaussianEstimator.sumW t + p.2 ≠ 0 := ne_of_gt (add_pos hWt hp)
      rw [addObservation_fin_pos _ _ _ _ _ hWt h0]
      have e2 : GaussianEstimator.sumWX t / GaussianEstimator.sumW t +
          p.2 * (p.1 - GaussianEstimator.sumWX t / GaussianEstimator.sumW t) /
            (GaussianEstimator.sumW t + p.2) =
          (GaussianEstimator.sumWX t + p.2 * p.1) / (GaussianEstimator.sumW t + p.2) := by
        field_simp
        ring
      have e3 : GaussianEstimator.sumWXX t -
            GaussianEstimator.sumWX t ^ 2 / GaussianEstimator.sumW t +
          p.2 * (p.1 - GaussianEstimator.sumWX t / GaussianEstimator.sumW t) *
            (p.1 - (GaussianEstimator.sumWX t / GaussianEstimator.sumW t +
              p.2 * (p.1 - GaussianEstimator.sumWX t / GaussianEstimator.sumW t) /
                (GaussianEstimator.sumW t + p.2))) =
          GaussianEstimator.sumWXX t + p.2 * p.1 * p.1 -
            (GaussianEstimator.sumWX t + p.2 * p.1) ^ 2 /
              (GaussianEstimator.sumW t + p.2) := by
        field_simp
        ring
      rw [e3, e2]

theorem sumSqDev_expand (μ : ℚ) (t : List (ℚ × ℚ)) :
    (t.map (fun p => p.2 * (p.1 - μ) ^ 2)).sum =
      GaussianEstimator.sumWXX t - 2 * μ * GaussianEstimator.sumWX t +
        μ ^ 2 * GaussianEstimator.sumW t := by
  induction t with
  | nil => simp [GaussianEstimator.sumWXX, GaussianEstimator.sumWX, GaussianEstimator.sumW]
  | cons q r ih =>
    simp only [GaussianEstimator.sumWXX, GaussianEstimator.sumWX, GaussianEstimator.sumW,
      List.map_cons, List.sum_cons] at ih ⊢
    rw [ih]
    ring

theorem sumSqDev_eq (l : List (ℚ × ℚ)) (hW : GaussianEstimator.sumW l ≠ 0) :
    GaussianEstimator.sumSqDev l =
      GaussianEstimator.sumWXX l - GaussianEstimator.sumWX l ^ 2 / GaussianEstimator.sumW l := by
  rw [GaussianEstimator.sumSqDev, sumSqDev_expand]
  field_simp
  ring

/-- C6: after any finite sequence of observations with finite values and
finite positive weights, `weight_sum` is the total weight, `mean` is the
weight-weighted sample mean `Σ wᵢxᵢ / Σ wᵢ`, and `get_variance()` is
`variance_sum / (weight_sum − 1)` — the unbiased weighted sample variance
`Σ wᵢ(xᵢ − x̄)² / (Σ wᵢ − 1)` — when `weight_sum > 1`, and `0` otherwise. -/
theorem gaussianEstimator_invariants (l : List (ℚ × ℚ)) (hpos : ∀ p ∈ l, 0 < p.2) :
    (GaussianEstimator.observeAll GaussianEstimator.new l).weightSum =
        Fl.fin (GaussianEstimator.sumW l) ∧
      (GaussianEstimator.observeAll GaussianEstimator.new l).mean =
        Fl.fin (GaussianEstimator.sumWX l / GaussianEstimator.sumW l) ∧
      (GaussianEstimator.observeAll GaussianEstimator.new l).getVariance =
        Fl.fin (if 1 < GaussianEstimator.sumW l then
          GaussianEstimator.sumSqDev l / (GaussianEstimator.sumW l - 1) else 0) := by
  rw [observeAll_new_eq l hpos]
  refine ⟨rfl, rfl, ?_⟩
  unfold GaussianEstimator.getVariance
  by_cases h1 : 1 < GaussianEstimator.sumW l
  · have hgt : Fl.gt (Fl.fin (GaussianEstimator.sumW l)) (Fl.fin 1) = true := by
      rw [fl_gt_fin]; exact decide_eq_true h1
    have hW0 : GaussianEstimator.sumW l ≠ 0 := by
      intro h; rw [h] at h1; norm_num at h1
    have hW1 : GaussianEstimator.sumW l - 1 ≠ 0 := by
      intro h
      have : GaussianEstimator.sumW l = 1 := by linarith
      rw [this] at h1; norm_num at h1
    simp only [hgt, if_true, fl_sub_fin, fl_div_fin _ _ hW1, if_pos h1, Fl.fin.injEq]
    rw [sumSqDev_eq l hW0]
  · have hgt : Fl.gt (Fl.fin (GaussianEstimator.sumW l)) (Fl.fin 1) = false := by
      rw [fl_gt_fin]; exact decide_eq_false h1
    simp [hgt, if_neg h1]

/-- Witness for C6 with observations `(0, 1)` and `(2, 1)` (mean 1, unbiased
sample variance 2 — matching the repository's own unit test). -/
theorem gaussianEstimator_invariants_witness :
    (GaussianEstimator.observeAll GaussianEstimator.new [(0, 1), (2, 1)]).weightSum =
        Fl.fin (GaussianEstimator.sumW [(0, 1), (2, 1)]) ∧
      (GaussianEstimator.observeAll GaussianEstimator.new [(0, 1), (2, 1)]).mean =
        Fl.fin (GaussianEstimator.sumWX [(0, 1), (2, 1)] /
          GaussianEstimator.sumW [(0, 1), (2, 1)]) ∧
      (GaussianEstimator.observeAll GaussianEstimator.new [(0, 1), (2, 1)]).getVariance =
        Fl.fin (if 1 < GaussianEstimator.sumW [(0, 1), (2, 1)] then
          GaussianEstimator.sumSqDev [(0, 1), (2, 1)] /
            (GaussianEstimator.sumW [(0, 1), (2, 1)] - 1) else 0) :=
  gaussianEstimator_invariants [(0, 1), (2, 1)] (by decide)

theorem addObservation_pos_vs (W m : ℚ) (vs : Fl) (x w : ℚ) (hW : 0 < W)
    (h0 : W + w ≠ 0) :
    (⟨Fl.fin W, Fl.fin m, vs⟩ : GaussianEstimator).addObservation (Fl.fin x) (Fl.fin w) =
      ⟨Fl.fin (W + w), Fl.fin (m + w * (x - m) / (W + w)),
        Fl.add vs (Fl.fin (w * (x - m) * (x - (m + w * (x - m) / (W + w)))))⟩ := by
  simp [GaussianEstimator.addObservation, Fl.isInfinite, Fl.isNan, fl_gt_fin, hW,
    fl_add_fin, fl_sub_fin, fl_mul_fin, fl_div_fin _ _ h0]

theorem addObservation_nonpos_vs (W m : ℚ) (vs : Fl) (x w : ℚ) (hW : ¬ 0 < W) :
    (⟨Fl.fin W, Fl.fin m, vs⟩ : GaussianEstimator).addObservation (Fl.fin x) (Fl.fin w) =
      ⟨Fl.fin w, Fl.fin x, vs⟩ := by
  simp [GaussianEstimator.addObservation, Fl.isInfinite, Fl.isNan, fl_gt_fin, hW]

theorem ensureLen_updateAt_ensureLen {α : Type} (l : List α) (i : ℕ) (pad : α)
    (f : α → α) :
    ensureLen (updateAt (ensureLen l i pad) i f) i pad = updateAt (ensureLen l i pad) i f := by
  apply ensureLen_of_le
  rw [updateAt_length, ensureLen_length]
  exact le_max_right _ _

/-- C7: observation is equivalent under weight decomposition — for a finite
estimator state and positive weights, `observe(x, w1); observe(x, w2)` yields
the same `weight_sum` and `mean` as the single call `observe(x, w1 + w2)`
(the `variance_sum` is excluded), and the nominal observer accumulates the
same per-class per-value count table either way. -/
theorem observe_weight_decomposition (g : GaussianEstimator) (W m x : ℚ)
    (o : NominalAttributeClassObserver) (xn : Fl) (c : ℕ) (w1 w2 : ℚ)
    (hws : g.weightSum = Fl.fin W) (hm : g.mean = Fl.fin m) (hW : 0 ≤ W)
    (h1 : 0 < w1) (h2 : 0 < w2) :
    (((g.addObservation (Fl.fin x) (Fl.fin w1)).addObservation (Fl.fin x)
          (Fl.fin w2)).weightSum =
        (g.addObservation (Fl.fin x) (Fl.fin (w1 + w2))).weightSum ∧
      ((g.addObservation (Fl.fin x) (Fl.fin w1)).addObservation (Fl.fin x)
          (Fl.fin w2)).mean =
        (g.addObservation (Fl.fin x) (Fl.fin (w1 + w2))).mean) ∧
      ((o.observeAttributeClass xn c (Fl.fin w1)).observeAttributeClass xn c
          (Fl.fin w2)).attributeValueDistributionPerClass =
        (o.observeAttributeClass xn c
          (Fl.fin (w1 + w2))).attributeValueDistributionPerClass := by
  constructor
  · obtain ⟨ws0, m0, v0⟩ := g
    simp only at hws hm
    subst hws hm
    rcases eq_or_lt_of_le hW with hW0 | hWpos
    · subst hW0
      rw [addObservation_nonpos_vs 0 m v0 x w1 (by norm_num),
        addObservation_pos_vs w1 x v0 x w2 h1 (by positivity),
        addObservation_nonpos_vs 0 m v0 x (w1 + w2) (by norm_num)]
      constructor
      · rfl
      · simp
    · have h01 : W + w1 ≠ 0 := by positivity
      have h012 : W + (w1 + w2) ≠ 0 := by positivity
      have h12 : W + w1 + w2 ≠ 0 := by
        intro h; apply h012; linarith
      rw [addObservation_pos_vs W m v0 x w1 hWpos h01,
        addObservation_pos_vs (W + w1) (m + w1 * (x - m) / (W + w1)) _ x w2
          (by positivity) h12,
        addObservation_pos_vs W m v0 x (w1 + w2) hWpos h012]
      constructor
      · simp only [Fl.fin.injEq]; ring
      · simp only [Fl.fin.injEq]
        field_simp
        ring
  · by_cases hnan : xn.isNan = true
    · simp [NominalAttributeClassObserver.observeAttributeClass, hnan]
    · simp only [NominalAttributeClassObserver.observeAttributeClass, hnan,
        Bool.false_eq_true, if_false]
      rw [ensureLen_updateAt_ensureLen, updateAt_updateAt]
      congr 1
      funext row
      rw [ensureLen_updateAt_ensureLen, updateAt_updateAt]
      congr 1
      funext cell
      exact fl_add_fin_fin_assoc cell w1 w2

/-- Witness for C7 at a concrete estimator state, observer state, value and
weights. -/
theorem observe_weight_decomposition_witness :
    ((((⟨Fl.fin 2, Fl.fin 3, Fl.fin 0⟩ : GaussianEstimator).addObservation (Fl.fin 5)
            (Fl.fin 1)).addObservation (Fl.fin 5) (Fl.fin 1)).weightSum =
        ((⟨Fl.fin 2, Fl.fin 3, Fl.fin 0⟩ : GaussianEstimator).addObservation (Fl.fin 5)
          (Fl.fin (1 + 1))).weightSum ∧
      (((⟨Fl.fin 2, Fl.fin 3, Fl.fin 0⟩ : GaussianEstimator).addObservation (Fl.fin 5)
            (Fl.fin 1)).addObservation (Fl.fin 5) (Fl.fin 1)).mean =
        ((⟨Fl.fin 2, Fl.fin 3, Fl.fin 0⟩ : GaussianEstimator).addObservation (Fl.fin 5)
          (Fl.fin (1 + 1))).mean) ∧
      ((NominalAttributeClassObserver.new.observeAttributeClass (Fl.fin 0) 0
            (Fl.fin 1)).observeAttributeClass (Fl.fin 0) 0
          (Fl.fin 1)).attributeValueDistributionPerClass =
        (NominalAttributeClassObserver.new.observeAttributeClass (Fl.fin 0) 0
          (Fl.fin (1 + 1))).attributeValueDistributionPerClass :=
  observe_weight_decomposition ⟨Fl.fin 2, Fl.fin 3, Fl.fin 0⟩ 2 3 5
    NominalAttributeClassObserver.new (Fl.fin 0) 0 1 1 rfl rfl (by norm_num)
    (by norm_num) (by norm_num)

theorem applyTrackerLimit_length (k : NodeKind) (c : ℕ) :
    ∀ (j : ℕ) (l : List FoundLeaf),
      (HoeffdingTree.applyTrackerLimit k c j l).length = l.length := by
  intro j l
  induction l generalizing j with
  | nil => rfl
  | cons f rest ih => simp [HoeffdingTree.applyTrackerLimit, ih]

theorem applyTrackerLimit_getElem? (k : NodeKind) (c : ℕ) :
    ∀ (j : ℕ) (l : List FoundLeaf) (i : ℕ),
      (HoeffdingTree.applyTrackerLimit k c j l)[i]? =
        (l[i]?).map (HoeffdingTree.trackerTransform k c (j + i)) := by
  intro j l
  induction l generalizing j with
  | nil => intro i; simp [HoeffdingTree.applyTrackerLimit]
  | cons f rest ih =>
    intro i
    cases i with
    | zero => simp [HoeffdingTree.applyTrackerLimit]
    | succ n =>
      rw [show HoeffdingTree.applyTrackerLimit k c j (f :: rest) =
          HoeffdingTree.trackerTransform k c j f ::
            HoeffdingTree.applyTrackerLimit k c (j + 1) rest from rfl]
      rw [List.getElem?_cons_succ, List.getElem?_cons_succ, ih (j + 1) n,
        show j + 1 + n = j + (n + 1) from by omega]

theorem foldl_max_le (l : List ℚ) (s : ℚ) :
    ∀ a : ℚ, a ≤ s → (∀ x ∈ l, x ≤ s) → l.foldl max a ≤ s := by
  induction l with
  | nil => intro a ha _; exact ha
  | cons c rest ih =>
    intro a ha hl
    exact ih (max a c) (max_le ha (hl c (List.mem_cons_self c rest)))
      (fun x hx => hl x (List.mem_cons_of_mem c hx))

theorem calculatePromise_nonneg (counts : List ℚ) (h : ∀ c ∈ counts, 0 ≤ c) :
    0 ≤ calculatePromise counts := by
  unfold calculatePromise
  by_cases htot : 0 < counts.sum
  · rw [if_pos htot]
    have hmin : f64Min ≤ counts.sum := by
      have : (0 : ℚ) ≤ (2 ^ 53 - 1) * 2 ^ 971 := by positivity
      calc f64Min ≤ 0 := neg_nonpos.mpr this
        _ ≤ counts.sum := le_of_lt htot
    have hsum : counts.foldl max f64Min ≤ counts.sum :=
      foldl_max_le counts counts.sum f64Min hmin
        (fun x hx => List.single_le_sum h x hx)
    linarith
  · rw [if_neg htot]

/-- C3: after `enforce_tracker_limit` (in the branch that manages leaves:
inactive leaves exist or the usage estimate exceeds the cap, and
`stop_mem_management` is unset), every learning leaf that is still active has
promise at least the promise, at the moment of the call, of every leaf the
call deactivated.  Leaves are homogeneous in the tree's configured
leaf-prediction kind (only `new_learning_node_with_values` creates them) and
class counts are nonnegative.  For the NB and NB-adaptive kinds the
deactivation loop's `ActiveLearningNode` downcast never fires, so nothing is
deactivated and the property is vacuous; for majority-class trees it follows
from the promise sort. -/
theorem enforceTrackerLimit_promise_order (t : TrackerState)
    (hnn : ∀ f ∈ t.leaves, ∀ c ∈ f.counts, 0 ≤ c)
    (hhom : ∀ f ∈ t.leaves, f.kind = newLeafKind t.leafPredictionOption ∨
      f.kind = NodeKind.inactiveLearning)
    (hguard : 0 < t.inactiveLeafNodeCount ∨
      HoeffdingTree.memoryUsage t > t.maxByteSizeOption)
    (hstop : t.stopMemManagementOption = false) :
    ∀ p ∈ (HoeffdingTree.sortedLeaves t).zip (HoeffdingTree.enforceTrackerLimit t).leaves,
      ∀ q ∈ (HoeffdingTree.sortedLeaves t).zip (HoeffdingTree.enforceTrackerLimit t).leaves,
        p.1.kind = NodeKind.activeLearning → p.2.kind = NodeKind.inactiveLearning →
        q.2.kind ≠ NodeKind.inactiveLearning →
        calculatePromise p.1.counts ≤ calculatePromise q.1.counts := by
  obtain ⟨cutoff, hleaves⟩ : ∃ cutoff,
      (HoeffdingTree.enforceTrackerLimit t).leaves =
        HoeffdingTree.applyTrackerLimit (newLeafKind t.leafPredictionOption) cutoff 0
          (HoeffdingTree.sortedLeaves t) := by
    refine ⟨(HoeffdingTree.sortedLeaves t).length -
      HoeffdingTree.computeMaxActive t.activeLeafByteSizeEstimate
        t.inactiveLeafByteSizeEstimate t.byteSizeEstimateOverheadFraction
        t.maxByteSizeOption (HoeffdingTree.sortedLeaves t).length, ?_⟩
    unfold HoeffdingTree.enforceTrackerLimit
    rw [if_pos hguard, hstop, if_neg Bool.false_ne_true]
  intro p hp q hq hp1 hp2 hq2
  obtain ⟨i, hilen, hip⟩ := List.mem_iff_getElem.1 hp
  obtain ⟨j, hjlen, hjq⟩ := List.mem_iff_getElem.1 hq
  subst hip hjq
  simp only [List.getElem_zip] at hp1 hp2 hq2 ⊢
  have hilen1 : i < (HoeffdingTree.sortedLeaves t).length :=
    List.lt_length_left_of_zip hilen
  have hjlen1 : j < (HoeffdingTree.sortedLeaves t).length :=
    List.lt_length_left_of_zip hjlen
  have hilen2 : i < (HoeffdingTree.enforceTrackerLimit t).leaves.length :=
    List.lt_length_right_of_zip hilen
  have hjlen2 : j < (HoeffdingTree.enforceTrackerLimit t).leaves.length :=
    List.lt_length_right_of_zip hjlen
  have hgeti : (HoeffdingTree.enforceTrackerLimit t).leaves[i] =
      HoeffdingTree.trackerTransform (newLeafKind t.leafPredictionOption) cutoff i
        ((HoeffdingTree.sortedLeaves t)[i]) := by
    have h1 : (HoeffdingTree.enforceTrackerLimit t).leaves[i]? =
        some ((HoeffdingTree.enforceTrackerLimit t).leaves[i]) :=
      List.getElem?_eq_getElem hilen2
    have h2 : (HoeffdingTree.enforceTrackerLimit t).leaves[i]? =
        some (HoeffdingTree.trackerTransform (newLeafKind t.leafPredictionOption) cutoff i
          ((HoeffdingTree.sortedLeaves t)[i])) := by
      rw [hleaves, applyTrackerLimit_getElem?, Nat.zero_add,
        List.getElem?_eq_getElem hilen1, Option.map_some']
    exact Option.some.inj (h1.symm.trans h2)
  have hgetj : (HoeffdingTree.enforceTrackerLimit t).leaves[j] =
      HoeffdingTree.trackerTransform (newLeafKind t.leafPredictionOption) cutoff j
        ((HoeffdingTree.sortedLeaves t)[j]) := by
    have h1 : (HoeffdingTree.enforceTrackerLimit t).leaves[j]? =
        some ((HoeffdingTree.enforceTrackerLimit t).leaves[j]) :=
      List.getElem?_eq_getElem hjlen2
    have h2 : (HoeffdingTree.enforceTrackerLimit t).leaves[j]? =
        some (HoeffdingTree.trackerTransform (newLeafKind t.leafPredictionOption) cutoff j
          ((HoeffdingTree.sortedLeaves t)[j])) := by
      rw [hleaves, applyTrackerLimit_getElem?, Nat.zero_add,
        List.getElem?_eq_getElem hjlen1, Option.map_some']
    exact Option.some.inj (h1.symm.trans h2)
  rw [hgeti] at hp2
  rw [hgetj] at hq2
  have hmem_i : (HoeffdingTree.sortedLeaves t)[i] ∈ t.leaves := by
    have hmem : (HoeffdingTree.sortedLeaves t)[i] ∈ HoeffdingTree.sortedLeaves t :=
      List.getElem_mem hilen1
    exact (List.mem_insertionSort promiseLe).mp hmem
  have hmem_j : (HoeffdingTree.sortedLeaves t)[j] ∈ t.leaves := by
    have hmem : (HoeffdingTree.sortedLeaves t)[j] ∈ HoeffdingTree.sortedLeaves t :=
      List.getElem_mem hjlen1
    exact (List.mem_insertionSort promiseLe).mp hmem
  have hnk : newLeafKind t.leafPredictionOption = NodeKind.activeLearning := by
    rcases hhom _ hmem_i with h | h
    · rw [← h, hp1]
    · rw [hp1] at h; cases h
  have hicut : i < cutoff := by
    by_contra hge
    simp [HoeffdingTree.trackerTransform, hge, hp1] at hp2
  have hjcut : cutoff ≤ j := by
    by_contra hlt
    push_neg at hlt
    rcases hhom _ hmem_j with h | h
    · rw [hnk] at h
      simp [HoeffdingTree.trackerTransform, hlt, h] at hq2
    · simp [HoeffdingTree.trackerTransform, hlt, h] at hq2
  have hij : i < j := lt_of_lt_of_le hicut hjcut
  have hsorted : List.Sorted promiseLe (HoeffdingTree.sortedLeaves t) :=
    List.sorted_insertionSort promiseLe t.leaves
  have hrel : promiseLe ((HoeffdingTree.sortedLeaves t).get ⟨i, hilen1⟩)
      ((HoeffdingTree.sortedLeaves t).get ⟨j, hjlen1⟩) :=
    hsorted.rel_get_of_lt hij
  simp only [List.get_eq_getElem] at hrel
  unfold promiseLe at hrel
  rw [extractPromise, if_pos hp1] at hrel
  rcases hhom _ hmem_j with h | h
  · rw [hnk] at h
    rw [extractPromise, if_pos h] at hrel
    exact hrel
  · rw [extractPromise, if_neg (by simp [h])] at hrel
    exact le_trans hrel (calculatePromise_nonneg _ (hnn _ hmem_j))

/-- Witness for C3: a majority-class tree over two active leaves with promises
`0` and `1` and one inactive-leaf slot; the cutoff deactivates the promise-`0`
leaf and the promise-`1` leaf stays active. -/
theorem enforceTrackerLimit_promise_order_witness :
    calculatePromise [(5 : ℚ), 0] ≤ calculatePromise [(2 : ℚ), 1] := by
  have hf5 : List.foldl max f64Min [(5 : ℚ), 0] = 5 := by
    simp only [List.foldl]
    rw [max_eq_right (show f64Min ≤ (5 : ℚ) by norm_num [f64Min]),
      max_eq_left (by norm_num : (0 : ℚ) ≤ 5)]
  have hf2 : List.foldl max f64Min [(2 : ℚ), 1] = 2 := by
    simp only [List.foldl]
    rw [max_eq_right (show f64Min ≤ (2 : ℚ) by norm_num [f64Min]),
      max_eq_left (by norm_num : (1 : ℚ) ≤ 2)]
  have hle : promiseLe ⟨NodeKind.activeLearning, [5, 0]⟩ ⟨NodeKind.activeLearning, [2, 1]⟩ := by
    unfold promiseLe extractPromise calculatePromise
    simp only [if_pos rfl]
    rw [show ([(5 : ℚ), 0]).sum = 5 by norm_num, show ([(2 : ℚ), 1]).sum = 3 by norm_num,
      hf5, hf2]
    norm_num
  have hs : HoeffdingTree.sortedLeaves
      { activeLeafNodeCount := 2, inactiveLeafNodeCount := 1,
        activeLeafByteSizeEstimate := 1, inactiveLeafByteSizeEstimate := 0,
        byteSizeEstimateOverheadFraction := 1, maxByteSizeOption := 1,
        stopMemManagementOption := false, growthAllowed := true,
        leafPredictionOption := LeafPredictionOption.majorityClass,
        leaves := [⟨NodeKind.activeLearning, [5, 0]⟩, ⟨NodeKind.activeLearning, [2, 1]⟩] } =
      [⟨NodeKind.activeLearning, [5, 0]⟩, ⟨NodeKind.activeLearning, [2, 1]⟩] := by
    unfold HoeffdingTree.sortedLeaves
    simp only [List.insertionSort, List.orderedInsert]
    rw [if_pos hle]
  have hmax : HoeffdingTree.computeMaxActive 1 0 1 1 2 = 1 := by
    unfold HoeffdingTree.computeMaxActive HoeffdingTree.computeMaxActiveGo
    norm_num [HoeffdingTree.computeMaxActiveGo]
  have henf : (HoeffdingTree.enforceTrackerLimit
      { activeLeafNodeCount := 2, inactiveLeafNodeCount := 1,
        activeLeafByteSizeEstimate := 1, inactiveLeafByteSizeEstimate := 0,
        byteSizeEstimateOverheadFraction := 1, maxByteSizeOption := 1,
        stopMemManagementOption := false, growthAllowed := true,
        leafPredictionOption := LeafPredictionOption.majorityClass,
        leaves := [⟨NodeKind.activeLearning, [5, 0]⟩,
          ⟨NodeKind.activeLearning, [2, 1]⟩] }).leaves =
      [⟨NodeKind.inactiveLearning, [5, 0]⟩, ⟨NodeKind.activeLearning, [2, 1]⟩] := by
    unfold HoeffdingTree.enforceTrackerLimit
    rw [if_pos (Or.inl (by norm_num)), if_neg Bool.false_ne_true]
    simp only [hs]
    rw [show ([(⟨NodeKind.activeLearning, [5, 0]⟩ : FoundLeaf),
        ⟨NodeKind.activeLearning, [2, 1]⟩]).length = 2 from rfl, hmax]
    simp [HoeffdingTree.applyTrackerLimit, HoeffdingTree.trackerTransform, newLeafKind]
  refine enforceTrackerLimit_promise_order
    { activeLeafNodeCount := 2, inactiveLeafNodeCount := 1,
      activeLeafByteSizeEstimate := 1, inactiveLeafByteSizeEstimate := 0,
      byteSizeEstimateOverheadFraction := 1, maxByteSizeOption := 1,
      stopMemManagementOption := false, growthAllowed := true,
      leafPredictionOption := LeafPredictionOption.majorityClass,
      leaves := [⟨NodeKind.activeLearning, [5, 0]⟩, ⟨NodeKind.activeLearning, [2, 1]⟩] }
    (by decide) (by decide) (Or.inl (by norm_num)) rfl
    (⟨NodeKind.activeLearning, [5, 0]⟩, ⟨NodeKind.inactiveLearning, [5, 0]⟩) ?_
    (⟨NodeKind.activeLearning, [2, 1]⟩, ⟨NodeKind.activeLearning, [2, 1]⟩) ?_
    rfl rfl (by decide)
  · rw [hs, henf]
    exact List.mem_cons_self _ _
  · rw [hs, henf]
    exact List.mem_cons_of_mem _ (List.mem_cons_self _ _)
